import Mathlib

/-!
# python2exe.c: a shallow embedding

Strings are lists of byte values (`Nat`, each below 256 in well-formed memory).
A pointer to a C string is modelled by the list of the bytes stored from the
pointer to the end of the allocation it points into; a load past that end and a
store outside an allocation are faults.  `long` is taken to be wide enough for
`input_len * 4 + 1` (it is 64 bits on the platform the tool targets, and no
string of 2^61 bytes fits in memory), so sizes are plain naturals.
-/

namespace Python2Exe

/-! ## Memory model -/

/-- Undefined behaviour the memory model detects. -/
inductive Fault where
  | readPastEnd
  | writePastEnd
  deriving DecidableEq, Repr

/-- The answer of one `malloc` call: whether it succeeds, and the bytes the
fresh block happens to hold (it is not initialised). -/
structure Alloc where
  ok : Bool
  junk : Nat → Nat

/-- Models `malloc(n)`: `none` is NULL. -/
def malloc (heap : Alloc) (n : Nat) : Option (List Nat) :=
  if heap.ok then some ((List.range n).map heap.junk) else none

/-- Models `buf[i] = v`. -/
def store (buf : List Nat) (i v : Nat) : Except Fault (List Nat) :=
  if i < buf.length then .ok (buf.set i v) else .error .writePastEnd

/-- Consecutive stores of `vs` at `buf[i]`, `buf[i+1]`, ... -/
def storeAll (buf : List Nat) (i : Nat) : List Nat → Except Fault (List Nat)
  | [] => .ok buf
  | v :: vs =>
    match store buf i v with
    | .error e => .error e
    | .ok buf1 => storeAll buf1 (i + 1) vs

/-- The C string held in a buffer: the bytes before the first NUL. -/
def cstr (buf : List Nat) : List Nat :=
  buf.takeWhile (fun b => b ≠ 0)

/-- Models `strlen(s)`. -/
def strlen : List Nat → Except Fault Nat
  | [] => .error .readPastEnd
  | c :: rest =>
    if c = 0 then .ok 0
    else
      match strlen rest with
      | .error e => .error e
      | .ok n => .ok (n + 1)

/-- The value of a `char` holding byte `b`, as the `int` it promotes to:
`charSigned` says whether plain `char` is signed on the platform. -/
def charValue (charSigned : Bool) (b : Nat) : Int :=
  if charSigned = true ∧ 128 ≤ b % 256 then ((b % 256 : Nat) : Int) - 256
  else ((b % 256 : Nat) : Int)

/-! ## printf's `%03o` -/

/-- Octal digits of `n`, most significant first, as ASCII codes. -/
def octalDigits : Nat → Nat → List Nat
  | 0, _ => []
  | fuel + 1, n =>
    if n < 8 then [48 + n] else octalDigits fuel (n / 8) ++ [48 + n % 8]

/-- The characters `printf("%03o", u)` produces: the octal digits of `u`,
padded on the left with zeros to a width of three. -/
def printf_03o (u : Nat) : List Nat :=
  let digits := octalDigits (u + 1) u
  List.replicate (3 - digits.length) 48 ++ digits

/-- Models `sprintf(dst + p, "\\%03o", u)`: stores a backslash, the digits and the
terminating NUL. -/
def sprintf_octal (buf : List Nat) (p u : Nat) : Except Fault (List Nat) :=
  storeAll buf p (92 :: printf_03o u ++ [0])

/-! ## escape_string -/

/-- Two stores through `*out_ptr++`. -/
def put2 (buf : List Nat) (p a b : Nat) : Except Fault (List Nat × Nat) :=
  match store buf p a with
  | .error e => .error e
  | .ok buf1 =>
    match store buf1 (p + 1) b with
    | .error e => .error e
    | .ok buf2 => .ok (buf2, p + 2)

/-- The body of the `for` loop of `escape_string`: the `switch` on `*in_ptr`,
with `out_ptr` at index `p` of the output buffer. The case labels are below
128, so a byte matches one exactly when it equals it, whatever the signedness
of `char`; the range test of the default branch is on the promoted value. -/
def escape_switch (charSigned : Bool) (c : Nat) (buf : List Nat) (p : Nat) :
    Except Fault (List Nat × Nat) :=
  if c = 10 then put2 buf p 92 110
  else if c = 13 then put2 buf p 92 114
  else if c = 9 then put2 buf p 92 116
  else if c = 92 then put2 buf p 92 92
  else if c = 34 then put2 buf p 92 34
  else if c = 0 then put2 buf p 92 48
  else if charValue charSigned c < 32 ∨ charValue charSigned c > 126 then
    match sprintf_octal buf p (c % 256) with
    | .error e => .error e
    | .ok buf1 => .ok (buf1, p + 4)
  else
    match store buf p c with
    | .error e => .error e
    | .ok buf1 => .ok (buf1, p + 1)

/-- The `for (in_ptr = input; *in_ptr; in_ptr++)` loop: the first argument is
the memory from `in_ptr` on. -/
def escape_loop (charSigned : Bool) : List Nat → List Nat → Nat → Except Fault (List Nat × Nat)
  | [], _, _ => .error .readPastEnd
  | c :: rest, buf, p =>
    if c = 0 then .ok (buf, p)
    else
      match escape_switch charSigned c buf p with
      | .error e => .error e
      | .ok (buf1, p1) => escape_loop charSigned rest buf1 p1

/-- Models `escape_string(input)`: `.ok none` is the NULL it returns when `malloc`
fails, `.ok (some buf)` the whole output buffer. -/
def escape_string (charSigned : Bool) (heap : Alloc) (input : List Nat) :
    Except Fault (Option (List Nat)) :=
  match strlen input with
  | .error e => .error e
  | .ok input_len =>
    match malloc heap (input_len * 4 + 1) with
    | none => .ok none
    | some output =>
      match escape_loop charSigned input output 0 with
      | .error e => .error e
      | .ok (buf, out_ptr) =>
        match store buf out_ptr 0 with
        | .error e => .error e
        | .ok buf1 => .ok (some buf1)

/-- The bytes one pass through the `switch` of `escape_string` appends for the
input byte `c` (what `escape_switch` stores below the new `out_ptr`). -/
def escapeByte (charSigned : Bool) (c : Nat) : List Nat :=
  if c = 10 then [92, 110]
  else if c = 13 then [92, 114]
  else if c = 9 then [92, 116]
  else if c = 92 then [92, 92]
  else if c = 34 then [92, 34]
  else if c = 0 then [92, 48]
  else if charValue charSigned c < 32 ∨ charValue charSigned c > 126 then
    92 :: printf_03o (c % 256)
  else [c]

/-! ## Reference definitions the claims are stated against -/

/-- ASCII `0` to `7`. -/
def isOctalDigit (c : Nat) : Bool :=
  decide (48 ≤ c) && decide (c ≤ 55)

/-- The byte an octal escape with the given digits stands for; a value that
does not fit a byte is rejected. -/
def octalValue (ds : List Nat) : Option Nat :=
  let v := ds.foldl (fun acc d => acc * 8 + (d - 48)) 0
  if v < 256 then some v else none

/-- Prepend a decoded byte. -/
def consByte (b : Option Nat) (rest : Option (List Nat)) : Option (List Nat) :=
  match b, rest with
  | some x, some xs => some (x :: xs)
  | _, _ => none

/-- Decoding of the body of a C string literal: the simple escapes
`\n \r \t \\ \"` and octal escapes of one to three digits; an unescaped
double quote or newline, any other escape and a trailing backslash are
rejected. -/
def decodeLiteral : List Nat → Option (List Nat)
  | [] => some []
  | c :: cs =>
    if c = 92 then
      match cs with
      | [] => none
      | e :: rest =>
        if e = 110 then consByte (some 10) (decodeLiteral rest)
        else if e = 114 then consByte (some 13) (decodeLiteral rest)
        else if e = 116 then consByte (some 9) (decodeLiteral rest)
        else if e = 92 then consByte (some 92) (decodeLiteral rest)
        else if e = 34 then consByte (some 34) (decodeLiteral rest)
        else if isOctalDigit e then
          match rest with
          | [] => consByte (octalValue [e]) (some [])
          | d2 :: rest2 =>
            if isOctalDigit d2 then
              match rest2 with
              | [] => consByte (octalValue [e, d2]) (some [])
              | d3 :: rest3 =>
                if isOctalDigit d3 then
                  consByte (octalValue [e, d2, d3]) (decodeLiteral rest3)
                else consByte (octalValue [e, d2]) (decodeLiteral (d3 :: rest3))
            else consByte (octalValue [e]) (decodeLiteral (d2 :: rest2))
        else none
    else if c = 34 ∨ c = 10 then none
    else consByte (some c) (decodeLiteral cs)

/-- The per-byte table of the specification, first match wins. -/
def specImage (b : Nat) : List Nat :=
  if b = 10 then [92, 110]
  else if b = 13 then [92, 114]
  else if b = 9 then [92, 116]
  else if b = 92 then [92, 92]
  else if b = 34 then [92, 34]
  else if b < 32 ∨ b > 126 then [92, 48 + b / 64, 48 + b / 8 % 8, 48 + b % 8]
  else [b]

/-- The tokens a safe literal body is made of: one printable byte other than
backslash and double quote, a simple escape, or a backslash and three octal
digits. -/
def isToken (t : List Nat) : Bool :=
  match t with
  | [b] => decide (32 ≤ b) && decide (b ≤ 126) && decide (b ≠ 92) && decide (b ≠ 34)
  | [a, e] =>
    decide (a = 92) &&
      (decide (e = 110) || decide (e = 114) || decide (e = 116) || decide (e = 92) ||
        decide (e = 34))
  | [a, d1, d2, d3] =>
    decide (a = 92) && isOctalDigit d1 && isOctalDigit d2 && isOctalDigit d3
  | _ => false

/-- The bytes of a sequence before its first NUL. -/
def beforeNul (bytes : List Nat) : List Nat :=
  bytes.takeWhile (fun b => b ≠ 0)

/-! ## String functions of the C library -/

/-- Models `strcpy(dst + i, src)`: copies the bytes of `src` up to and including its
terminating NUL. The first argument is the memory from `src` on. -/
def strcpy : List Nat → List Nat → Nat → Except Fault (List Nat)
  | [], _, _ => .error .readPastEnd
  | c :: rest, dst, i =>
    match store dst i c with
    | .error e => .error e
    | .ok dst1 => if c = 0 then .ok dst1 else strcpy rest dst1 (i + 1)

/-- Models `strcat(dst, src)`. -/
def strcat (dst src : List Nat) : Except Fault (List Nat) :=
  match strlen dst with
  | .error e => .error e
  | .ok n => strcpy src dst n

/-- The scan of `strrchr`: `i` is the index of the head of the memory left to
scan, `last` the index of the last occurrence seen so far. -/
def strrchr_scan (ch : Nat) : List Nat → Nat → Option Nat → Except Fault (Option Nat)
  | [], _, _ => .error .readPastEnd
  | c :: rest, i, last =>
    if c = 0 then .ok (if ch = 0 then some i else last)
    else strrchr_scan ch rest (i + 1) (if c = ch then some i else last)

/-- Models `strrchr(s, ch)`: the index of the last occurrence of `ch` in the string,
`none` for NULL. -/
def strrchr (s : List Nat) (ch : Nat) : Except Fault (Option Nat) :=
  strrchr_scan ch s 0 none

/-- Models `strcmp(a, b) == 0`. -/
def strcmp_eq : List Nat → List Nat → Except Fault Bool
  | [], _ => .error .readPastEnd
  | _ :: _, [] => .error .readPastEnd
  | x :: xs, y :: ys =>
    if x ≠ y then .ok false
    else if x = 0 then .ok true
    else strcmp_eq xs ys

/-! ## Constants -/

/-- Models `PYTHON_EXECUTABLE`, "/usr/bin/python3". -/
def PYTHON_EXECUTABLE : List Nat :=
  [47, 117, 115, 114, 47, 98, 105, 110, 47, 112, 121, 116, 104, 111, 110, 51]

/-- Models `MAX_PATH`. -/
def MAX_PATH : Nat := 4096

/-- The literal ".py" with its terminator. -/
def dotPy : List Nat := [46, 112, 121, 0]

/-! ## create_output_filename -/

/-- Models `create_output_filename(input_filename)`: `.ok none` is NULL, `.ok (some
buf)` the buffer it returns. -/
def create_output_filename (heap : Alloc) (input_filename : List Nat) :
    Except Fault (Option (List Nat)) :=
  match strlen input_filename with
  | .error e => .error e
  | .ok len =>
    match malloc heap (len + 10) with
    | none => .ok none
    | some output0 =>
      match strcpy input_filename output0 0 with
      | .error e => .error e
      | .ok output =>
        match strrchr output 46 with
        | .error e => .error e
        | .ok none => .ok (some output)
        | .ok (some dot) =>
          match strcmp_eq (output.drop dot) dotPy with
          | .error e => .error e
          | .ok true =>
            match store output dot 0 with
            | .error e => .error e
            | .ok output1 => .ok (some output1)
          | .ok false => .ok (some output)

/-! ## The file system and the conversion -/

/-- What the file system answers when `read_file` reads one file: whether
`fopen` succeeds, whether the file is seekable (a regular file; a FIFO or a
pipe is not), the bytes the stream holds, and how many bytes `fread` delivers
at most. -/
structure FileRead where
  opens : Bool
  seekable : Bool
  content : List Nat
  readCount : Nat

/-- What `ftell` returns after `fseek(file, 0, SEEK_END)`: the length of a
seekable file, and -1 when the file is not seekable. -/
def ftell_end (f : FileRead) : Int :=
  if f.seekable = true then (f.content.length : Int) else -1

/-- Conversion of a `long` to `size_t` (64 bits): a negative value wraps, a
value that is not negative is kept. -/
def toSizeT (n : Int) : Nat :=
  if n < 0 then (n + 2 ^ 64).toNat else n.toNat

/-- Models `read_file(filename, &size)`: `.ok none` is NULL, `.ok (some (buffer,
size))` the buffer and the size stored through `size`. The results of `fseek`
and `ftell` are used unchecked, as in the source. -/
def read_file (f : FileRead) (heap : Alloc) : Except Fault (Option (List Nat × Int)) :=
  if f.opens = false then .ok none
  else
    let size : Int := ftell_end f
    match malloc heap (toSizeT (size + 1)) with
    | none => .ok none
    | some buffer0 =>
      let read_size := min (min f.readCount (toSizeT size)) f.content.length
      match storeAll buffer0 0 (f.content.take read_size) with
      | .error e => .error e
      | .ok buffer1 =>
        if (read_size : Int) ≠ size then .ok none
        else
          match store buffer1 (toSizeT size) 0 with
          | .error e => .error e
          | .ok buffer => .ok (some (buffer, size))

/-- Models `get_file_size(filename)`: `opened` is `none` when `fopen` fails and the
offset `ftell` reports at the end of the file otherwise. -/
def get_file_size (opened : Option Nat) : Int :=
  match opened with
  | none => -1
  | some size => (size : Int)

/-- Models `file_exists(filename)`, given whether `stat` returns 0. -/
def file_exists (statOk : Bool) : Bool :=
  statOk

/-- The answers of the operating system during one run of
`convert_python_to_exe`. -/
structure World where
  charSigned : Bool
  scriptExists : Bool
  interpreterExists : Bool
  script : FileRead
  readHeap : Alloc
  escapeHeap : Alloc
  /-- The six characters `mkstemps` puts in place of `XXXXXX`; `none` when it
  returns -1. -/
  mkstemps : Option (List Nat)
  /-- Whether `fopen(temp_c_file, "w")` succeeds. -/
  wrapperOpens : Bool
  /-- Whether the `fprintf` and the `fclose` that write the wrapper source
  succeed. -/
  wrapperWriteOk : Bool
  /-- What `system(compile_cmd)` returns. -/
  compileStatus : Int
  /-- Whether `stat` finds the output file after the compilation. -/
  outputExists : Bool
  /-- What `get_file_size` sees of the output file. -/
  outputSize : Option Nat

/-- The calls with an effect outside the process, in the order made; the three
call sites of `file_exists` are told apart. -/
inductive Event where
  | statScript (path : List Nat)
  | statInterpreter (path : List Nat)
  | statOutput (path : List Nat)
  | readFile (path : List Nat)
  | escape
  | mkstempsFailed
  | mkstemps (path : List Nat)
  | close
  | writeWrapper (path : List Nat) (python_script : List Nat) (escaped_code : List Nat)
  | writeWrapperFailed (path : List Nat)
  | openWrapperFailed (path : List Nat)
  | system (cmd : List Nat)
  | chmod (path : List Nat)
  | unlink (path : List Nat)
  | fileSize (path : List Nat)
  deriving DecidableEq, Repr

/-- The path "/tmp/python2exe_XXXXXX.c" with the six characters filled in. -/
def tempCFile (six : List Nat) : List Nat :=
  [47, 116, 109, 112, 47, 112, 121, 116, 104, 111, 110, 50, 101, 120, 101, 95] ++ six ++ [46, 99]

/-- Models `generate_wrapper(python_script, escaped_code, temp_c_file)`: the return
code and the calls made. The text written is the fixed template with
`escaped_code` (read as a string), the base name of the script and
`PYTHON_EXECUTABLE` substituted. The results of `fprintf` and `fclose` are not
looked at: the function returns 0 whether or not the text was written. -/
def generate_wrapper (w : World) (python_script escaped_code temp_c_file : List Nat) :
    Int × List Event :=
  if w.wrapperOpens = false then (1, [Event.openWrapperFailed temp_c_file])
  else if w.wrapperWriteOk = false then (0, [Event.writeWrapperFailed temp_c_file])
  else (0, [Event.writeWrapper temp_c_file python_script (cstr escaped_code)])

/-- The command `compile_wrapper` formats with `snprintf` into
`compile_cmd[MAX_PATH * 2]`: `clang -O2 -o "<output>" "<temp>"`, cut to fit. -/
def compileCommand (temp_c_file output_executable : List Nat) : List Nat :=
  ([99, 108, 97, 110, 103, 32, 45, 79, 50, 32, 45, 111, 32, 34] ++ output_executable ++
    [34, 32, 34] ++ temp_c_file ++ [34]).take (MAX_PATH * 2 - 1)

/-- Models `compile_wrapper(temp_c_file, output_executable)`. -/
def compile_wrapper (w : World) (temp_c_file output_executable : List Nat) : Int × List Event :=
  let compile_cmd := compileCommand temp_c_file output_executable
  if w.compileStatus ≠ 0 then (1, [Event.system compile_cmd])
  else (0, [Event.system compile_cmd, Event.chmod output_executable])

/-- Models `convert_python_to_exe(python_script, output_executable)`: the return code
and the calls made, in order. -/
def convert_python_to_exe (w : World) (python_script output_executable : List Nat) :
    Except Fault (Int × List Event) :=
  let t0 := [Event.statScript python_script]
  if file_exists w.scriptExists = false then .ok (1, t0)
  else
    let t1 := t0 ++ [Event.statInterpreter PYTHON_EXECUTABLE]
    if file_exists w.interpreterExists = false then .ok (1, t1)
    else
      let t2 := t1 ++ [Event.readFile python_script]
      match read_file w.script w.readHeap with
      | .error e => .error e
      | .ok none => .ok (1, t2)
      | .ok (some (python_code, _)) =>
        let t3 := t2 ++ [Event.escape]
        match escape_string w.charSigned w.escapeHeap python_code with
        | .error e => .error e
        | .ok none => .ok (1, t3)
        | .ok (some escaped_code) =>
          match w.mkstemps with
          | none => .ok (1, t3 ++ [Event.mkstempsFailed])
          | some six =>
            let temp_c_file := tempCFile six
            let t4 := t3 ++ [Event.mkstemps temp_c_file, Event.close]
            let gen := generate_wrapper w python_script escaped_code temp_c_file
            if gen.1 ≠ 0 then .ok (1, t4 ++ gen.2 ++ [Event.unlink temp_c_file])
            else
              let t5 := t4 ++ gen.2
              let comp := compile_wrapper w temp_c_file output_executable
              if comp.1 ≠ 0 then .ok (1, t5 ++ comp.2 ++ [Event.unlink temp_c_file])
              else
                let t6 := t5 ++ comp.2 ++ [Event.unlink temp_c_file, Event.statOutput output_executable]
                if file_exists w.outputExists = false then .ok (1, t6)
                else
                  let _exe_size := get_file_size w.outputSize
                  .ok (0, t6 ++ [Event.fileSize output_executable])

/-- Models `main(argc, argv)`: `argv` lists the arguments as strings, `nameHeap` is
the answer to the `malloc` of `create_output_filename`. -/
def main (w : World) (nameHeap : Alloc) (argv : List (List Nat)) :
    Except Fault (Int × List Event) :=
  let argc := argv.length
  if argc < 2 ∨ argc > 3 then .ok (1, [])
  else
    let python_script := argv.getD 1 []
    if argc = 3 then convert_python_to_exe w python_script (argv.getD 2 [])
    else
      match create_output_filename nameHeap (python_script ++ [0]) with
      | .error e => .error e
      | .ok none => .ok (1, [])
      | .ok (some output_executable) =>
        convert_python_to_exe w python_script (cstr output_executable)

/-! ## The steps of the conversion -/

/-- The steps of `convert_python_to_exe`, in the order of the specification. -/
inductive Step where
  | inputExists
  | interpreterExists
  | read
  | escape
  | createTemp
  | generate
  | compile
  | outputExists
  deriving DecidableEq, Repr

/-- All steps, in order. -/
def allSteps : List Step :=
  [Step.inputExists, Step.interpreterExists, Step.read, Step.escape, Step.createTemp,
    Step.generate, Step.compile, Step.outputExists]

/-- The step a call belongs to; `close`, `chmod`, `unlink` and the size query
are no step of their own. -/
def stepOf : Event → Option Step
  | .statScript _ => some Step.inputExists
  | .statInterpreter _ => some Step.interpreterExists
  | .readFile _ => some Step.read
  | .escape => some Step.escape
  | .mkstempsFailed => some Step.createTemp
  | .mkstemps _ => some Step.createTemp
  | .writeWrapper _ _ _ => some Step.generate
  | .writeWrapperFailed _ => some Step.generate
  | .openWrapperFailed _ => some Step.generate
  | .system _ => some Step.compile
  | .statOutput _ => some Step.outputExists
  | .close => none
  | .chmod _ => none
  | .unlink _ => none
  | .fileSize _ => none

/-- Whether `read_file` delivers the script: the file opens, `ftell` reports
its size, the buffer is allocated and `fread` delivers every byte. -/
def readOk (w : World) : Bool :=
  w.script.opens && w.script.seekable && w.readHeap.ok &&
    decide (w.script.content.length ≤ w.script.readCount)

/-- Whether `read_file` stores past the end of its buffer: the script opens
but is not seekable, so that the buffer has `-1 + 1 = 0` bytes, the allocation
succeeds, and `fread` delivers at least one byte. -/
def readOverruns (w : World) : Bool :=
  w.script.opens && !w.script.seekable && w.readHeap.ok &&
    decide (0 < w.script.readCount) && decide (0 < w.script.content.length)

/-- Whether each step succeeds in a world, in the order of `allSteps`; the
generation of the wrapper succeeds when its source file is opened and
written. -/
def stepOutcomes (w : World) : List Bool :=
  [w.scriptExists, w.interpreterExists, readOk w, w.escapeHeap.ok, w.mkstemps.isSome,
    w.wrapperOpens && w.wrapperWriteOk, decide (w.compileStatus = 0), w.outputExists]

/-- Whether each step reports success to `convert_python_to_exe`, in the order
of `allSteps`: `generate_wrapper` returns 0 as soon as the source file of the
wrapper is opened. -/
def stepReports (w : World) : List Bool :=
  [w.scriptExists, w.interpreterExists, readOk w, w.escapeHeap.ok, w.mkstemps.isSome,
    w.wrapperOpens, decide (w.compileStatus = 0), w.outputExists]

/-- The string `escape_string` returns for the script of a world. -/
def escapedScript (w : World) : List Nat :=
  (beforeNul w.script.content).flatMap (escapeByte w.charSigned)

/-- The result of `convert_python_to_exe` written out over the answers of
the world, with the results of `read_file` and `escape_string` in closed form
(`convert_closed` proves the two equal). -/
def convertOutcome (w : World) (python_script output_executable : List Nat) :
    Int × List Event :=
  let t0 := [Event.statScript python_script]
  if w.scriptExists = false then (1, t0)
  else
    let t1 := t0 ++ [Event.statInterpreter PYTHON_EXECUTABLE]
    if w.interpreterExists = false then (1, t1)
    else
      let t2 := t1 ++ [Event.readFile python_script]
      if readOk w = false then (1, t2)
      else
        let t3 := t2 ++ [Event.escape]
        if w.escapeHeap.ok = false then (1, t3)
        else
          match w.mkstemps with
          | none => (1, t3 ++ [Event.mkstempsFailed])
          | some six =>
            let temp_c_file := tempCFile six
            let t4 := t3 ++ [Event.mkstemps temp_c_file, Event.close]
            if w.wrapperOpens = false then
              (1, t4 ++ [Event.openWrapperFailed temp_c_file, Event.unlink temp_c_file])
            else
              let t5 := t4 ++ [if w.wrapperWriteOk = false then Event.writeWrapperFailed temp_c_file
                else Event.writeWrapper temp_c_file python_script (escapedScript w)]
              let cmd := compileCommand temp_c_file output_executable
              if w.compileStatus ≠ 0 then (1, t5 ++ [Event.system cmd, Event.unlink temp_c_file])
              else
                let t6 := t5 ++ [Event.system cmd, Event.chmod output_executable,
                  Event.unlink temp_c_file, Event.statOutput output_executable]
                if w.outputExists = false then (1, t6)
                else (0, t6 ++ [Event.fileSize output_executable])

/-- A world in which every step succeeds and the compiler leaves an output
file of size zero. -/
def emptyOutputWorld : World where
  charSigned := true
  scriptExists := true
  interpreterExists := true
  script := ⟨true, true, [112, 97, 115, 115], 4⟩
  readHeap := ⟨true, fun _ => 0⟩
  escapeHeap := ⟨true, fun _ => 0⟩
  mkstemps := some [97, 98, 99, 100, 101, 102]
  wrapperOpens := true
  wrapperWriteOk := true
  compileStatus := 0
  outputExists := true
  outputSize := some 0

/-- A world in which the source file of the wrapper opens but cannot be
written (the disk is full), and the compiler then fails on it. -/
def writeFailureWorld : World where
  charSigned := true
  scriptExists := true
  interpreterExists := true
  script := ⟨true, true, [112, 97, 115, 115], 4⟩
  readHeap := ⟨true, fun _ => 0⟩
  escapeHeap := ⟨true, fun _ => 0⟩
  mkstemps := some [97, 98, 99, 100, 101, 102]
  wrapperOpens := true
  wrapperWriteOk := false
  compileStatus := 256
  outputExists := false
  outputSize := none

/-- A world in which every step succeeds. -/
def successWorld : World where
  charSigned := true
  scriptExists := true
  interpreterExists := true
  script := ⟨true, true, [112, 97, 115, 115], 4⟩
  readHeap := ⟨true, fun _ => 0⟩
  escapeHeap := ⟨true, fun _ => 0⟩
  mkstemps := some [97, 98, 99, 100, 101, 102]
  wrapperOpens := true
  wrapperWriteOk := true
  compileStatus := 0
  outputExists := true
  outputSize := some 16384

/-- Whether every temporary file created in a trace is unlinked later in it. -/
def tempFilesRemoved : List Event → Bool
  | [] => true
  | Event.mkstemps path :: rest => decide (Event.unlink path ∈ rest) && tempFilesRemoved rest
  | _ :: rest => tempFilesRemoved rest

/-! ## The generated wrapper program -/

/-- One pass of the argument loop of the generated `main`: the three `strcat`
calls for `argv[i]`. -/
def wrapper_append_arg (python_cmd arg : List Nat) : Except Fault (List Nat) :=
  match strcat python_cmd [32, 34, 0] with
  | .error e => .error e
  | .ok cmd1 =>
    match strcat cmd1 (arg ++ [0]) with
    | .error e => .error e
    | .ok cmd2 => strcat cmd2 [34, 0]

/-- The loop `for (int i = 1; i < argc; i++)` of the generated `main`. -/
def wrapper_append_args : List (List Nat) → List Nat → Except Fault (List Nat)
  | [], python_cmd => .ok python_cmd
  | arg :: args, python_cmd =>
    match wrapper_append_arg python_cmd arg with
    | .error e => .error e
    | .ok cmd1 => wrapper_append_args args cmd1

/-- The part of the generated `main` that builds `python_cmd`, for the
temporary file name `temp_file` and the arguments `argv`: `.ok none` when its
`malloc` fails, `.ok (some buf)` the buffer handed to `system`. -/
def wrapper_build_command (heap : Alloc) (temp_file : List Nat) (argv : List (List Nat)) :
    Except Fault (Option (List Nat)) :=
  match strlen (temp_file ++ [0]) with
  | .error e => .error e
  | .ok len =>
    match malloc heap (len + 1024) with
    | none => .ok none
    | some cmd0 =>
      match strcpy (PYTHON_EXECUTABLE ++ [32, 0]) cmd0 0 with
      | .error e => .error e
      | .ok cmd1 =>
        match strcat cmd1 (temp_file ++ [0]) with
        | .error e => .error e
        | .ok cmd2 =>
          match wrapper_append_args (argv.drop 1) cmd2 with
          | .error e => .error e
          | .ok cmd => .ok (some cmd)

/-- For each argument a space, a double quote, the argument and a double
quote. -/
def argsText (args : List (List Nat)) : List Nat :=
  args.flatMap (fun arg => [32, 34] ++ arg ++ [34])

/-- The command string the claim describes: the interpreter path, a space,
the temporary file path, then for each argument after argument 0 a space, a
double quote, the argument and a double quote. -/
def commandText (temp_file : List Nat) (argv : List (List Nat)) : List Nat :=
  PYTHON_EXECUTABLE ++ [32] ++ temp_file ++ argsText (argv.drop 1)

end Python2Exe

/-! ## Lemmas on the memory model -/

namespace Python2Exe

theorem store_append (L : List Nat) (x : Nat) (R : List Nat) (v : Nat) :
    store (L ++ x :: R) L.length v = .ok (L ++ v :: R) := by
  simp [store]

theorem store_fault (buf : List Nat) (i v : Nat) (h : buf.length ≤ i) :
    store buf i v = .error .writePastEnd := by
  simp [store]
  omega

theorem storeAll_append (vs : List Nat) :
    ∀ (L xs R : List Nat), xs.length = vs.length →
      storeAll (L ++ xs ++ R) L.length vs = .ok (L ++ vs ++ R) := by
  induction vs with
  | nil =>
    intro L xs R h
    have : xs = [] := List.length_eq_zero.mp h
    subst this
    simp [storeAll]
  | cons v vs ih =>
    intro L xs R h
    cases xs with
    | nil => simp at h
    | cons x xs =>
      simp only [List.length_cons, Nat.add_right_cancel_iff] at h
      have h1 : store (L ++ (x :: xs) ++ R) L.length v = .ok (L ++ v :: (xs ++ R)) := by
        have := store_append L x (xs ++ R) v
        simpa using this
      have h2 := ih (L ++ [v]) xs R h
      simp only [List.length_append, List.length_singleton, List.append_assoc,
        List.singleton_append] at h2
      simp only [storeAll, h1]
      simpa using h2

theorem put2_append (L : List Nat) (x0 x1 : Nat) (R : List Nat) (a b : Nat) :
    put2 (L ++ x0 :: x1 :: R) L.length a b = .ok (L ++ a :: b :: R, L.length + 2) := by
  have h2 := store_append (L ++ [a]) x1 R b
  simp only [List.length_append, List.length_singleton, List.append_assoc,
    List.singleton_append] at h2
  simp [put2, store_append, h2]

theorem printf_03o_byte (u : Nat) (h : u < 256) :
    printf_03o u = [48 + u / 64, 48 + u / 8 % 8, 48 + u % 8] := by
  interval_cases u <;> rfl

theorem escapeByte_length_le (s : Bool) (c : Nat) : (escapeByte s c).length ≤ 4 := by
  have hp := printf_03o_byte (c % 256) (Nat.mod_lt _ (by norm_num))
  unfold escapeByte
  split_ifs <;> simp [hp]

theorem escape_switch_ok (s : Bool) (c : Nat) (L F : List Nat) (hF : 5 ≤ F.length) :
    ∃ F', escape_switch s c (L ++ F) L.length
        = .ok (L ++ escapeByte s c ++ F', L.length + (escapeByte s c).length) ∧
      (escapeByte s c).length + F'.length = F.length := by
  obtain ⟨x0, x1, x2, x3, x4, R, rfl⟩ :
      ∃ x0 x1 x2 x3 x4 R, F = x0 :: x1 :: x2 :: x3 :: x4 :: R := by
    match F, hF with
    | x0 :: x1 :: x2 :: x3 :: x4 :: R, _ => exact ⟨x0, x1, x2, x3, x4, R, rfl⟩
  have hp := printf_03o_byte (c % 256) (Nat.mod_lt _ (by norm_num))
  unfold escape_switch escapeByte
  split_ifs
  · exact ⟨x2 :: x3 :: x4 :: R, by simp [put2_append], by simp; omega⟩
  · exact ⟨x2 :: x3 :: x4 :: R, by simp [put2_append], by simp; omega⟩
  · exact ⟨x2 :: x3 :: x4 :: R, by simp [put2_append], by simp; omega⟩
  · exact ⟨x2 :: x3 :: x4 :: R, by simp [put2_append], by simp; omega⟩
  · exact ⟨x2 :: x3 :: x4 :: R, by simp [put2_append], by simp; omega⟩
  · exact ⟨x2 :: x3 :: x4 :: R, by simp [put2_append], by simp; omega⟩
  · refine ⟨0 :: R, ?_, by simp only [hp, List.length_cons, List.length_nil]; omega⟩
    have h := storeAll_append (92 :: printf_03o (c % 256) ++ [0]) L [x0, x1, x2, x3, x4] R
      (by simp [hp])
    have h' : L ++ [x0, x1, x2, x3, x4] ++ R = L ++ x0 :: x1 :: x2 :: x3 :: x4 :: R := by simp
    rw [h'] at h
    simp only [sprintf_octal, h]
    simp [hp]
  · refine ⟨x1 :: x2 :: x3 :: x4 :: R, ?_, by simp only [List.length_cons, List.length_nil]; omega⟩
    simp [store_append]

theorem escape_loop_cons (s : Bool) (c : Nat) (rest buf : List Nat) (p : Nat) :
    escape_loop s (c :: rest) buf p =
      if c = 0 then .ok (buf, p)
      else
        match escape_switch s c buf p with
        | .error e => .error e
        | .ok (buf1, p1) => escape_loop s rest buf1 p1 := by
  rw [escape_loop]

theorem escape_loop_ok (s : Bool) (pre : List Nat) (h0 : ∀ b ∈ pre, b ≠ 0) (tail : List Nat) :
    ∀ (L F : List Nat), 4 * pre.length + 1 ≤ F.length →
      ∃ F', escape_loop s (pre ++ 0 :: tail) (L ++ F) L.length
          = .ok (L ++ pre.flatMap (escapeByte s) ++ F',
              L.length + (pre.flatMap (escapeByte s)).length) ∧
        (pre.flatMap (escapeByte s)).length + F'.length = F.length ∧
        (pre.flatMap (escapeByte s)).length ≤ 4 * pre.length := by
  induction pre with
  | nil =>
    intro L F _
    exact ⟨F, by simp [escape_loop], by simp, by simp⟩
  | cons c pre ih =>
    intro L F hF
    have hc : c ≠ 0 := h0 c (by simp)
    have h0' : ∀ b ∈ pre, b ≠ 0 := fun b hb => h0 b (by simp [hb])
    simp only [List.length_cons] at hF
    obtain ⟨F1, hsw, hlen1⟩ := escape_switch_ok s c L F (by omega)
    have hle := escapeByte_length_le s c
    obtain ⟨F2, hloop, hlen2, hbound⟩ := ih h0' (L ++ escapeByte s c) F1 (by omega)
    refine ⟨F2, ?_, ?_, ?_⟩
    · simp only [List.length_append] at hloop
      rw [List.cons_append, escape_loop_cons, if_neg hc, hsw]
      simp only []
      rw [hloop]
      simp [List.flatMap_cons, Nat.add_assoc]
    · simp only [List.flatMap_cons, List.length_append]
      omega
    · simp only [List.flatMap_cons, List.length_append, List.length_cons]
      omega

theorem strlen_append (pre : List Nat) (h0 : ∀ b ∈ pre, b ≠ 0) (tail : List Nat) :
    strlen (pre ++ 0 :: tail) = .ok pre.length := by
  induction pre with
  | nil => simp [strlen]
  | cons c pre ih =>
    have hc : c ≠ 0 := h0 c (by simp)
    have h0' : ∀ b ∈ pre, b ≠ 0 := fun b hb => h0 b (by simp [hb])
    simp [strlen, hc, ih h0']

theorem cstr_append (out : List Nat) (h0 : ∀ b ∈ out, b ≠ 0) (rest : List Nat) :
    cstr (out ++ 0 :: rest) = out := by
  induction out with
  | nil => simp [cstr]
  | cons c out ih =>
    have hc : c ≠ 0 := h0 c (by simp)
    have h0' : ∀ b ∈ out, b ≠ 0 := fun b hb => h0 b (by simp [hb])
    have := ih h0'
    simp [cstr] at this
    simp [cstr, hc, this]

theorem beforeNul_ne_zero (S : List Nat) : ∀ b ∈ beforeNul S, b ≠ 0 := by
  intro b hb
  have := List.mem_takeWhile_imp hb
  simpa using this

theorem beforeNul_split (S : List Nat) :
    ∃ tail, S ++ [0] = beforeNul S ++ 0 :: tail := by
  induction S with
  | nil => exact ⟨[], by simp [beforeNul]⟩
  | cons c S ih =>
    by_cases hc : c = 0
    · subst hc
      exact ⟨S ++ [0], by simp [beforeNul]⟩
    · obtain ⟨tail, ht⟩ := ih
      refine ⟨tail, ?_⟩
      simp only [beforeNul] at ht
      simp [beforeNul, hc, ht]

theorem beforeNul_of_not_mem (S : List Nat) (h : 0 ∉ S) : beforeNul S = S := by
  simp only [beforeNul, List.takeWhile_eq_self_iff]
  intro x hx
  have : x ≠ 0 := fun e => h (e ▸ hx)
  simpa using this

theorem beforeNul_sublist_bytes (S : List Nat) (hbytes : ∀ b ∈ S, b < 256) :
    ∀ b ∈ beforeNul S, b < 256 := fun b hb =>
  hbytes b ((List.takeWhile_sublist _).subset hb)

theorem escapeByte_ne_zero (s : Bool) (c : Nat) : ∀ b ∈ escapeByte s c, b ≠ 0 := by
  have hp := printf_03o_byte (c % 256) (Nat.mod_lt _ (by norm_num))
  intro b hb
  unfold escapeByte at hb
  split_ifs at hb <;> simp [hp] at hb <;> omega

theorem escaped_ne_zero (s : Bool) (pre : List Nat) :
    ∀ b ∈ pre.flatMap (escapeByte s), b ≠ 0 := by
  intro b hb
  obtain ⟨c, _, hc⟩ := List.mem_flatMap.mp hb
  exact escapeByte_ne_zero s c b hc

/-- The run of `escape_string` on a string `pre` followed by its terminator:
no store leaves the buffer, and the buffer returned holds the images of the
bytes of `pre`, a NUL, and what is left of the allocation. -/
theorem escape_string_ok (s : Bool) (heap : Alloc) (hok : heap.ok = true) (pre : List Nat)
    (h0 : ∀ b ∈ pre, b ≠ 0) (tail : List Nat) :
    ∃ rest, escape_string s heap (pre ++ 0 :: tail)
        = .ok (some (pre.flatMap (escapeByte s) ++ 0 :: rest)) ∧
      (pre.flatMap (escapeByte s)).length + 1 + rest.length = 4 * pre.length + 1 ∧
      (pre.flatMap (escapeByte s)).length ≤ 4 * pre.length := by
  obtain ⟨F', hloop, hlen, hbound⟩ := escape_loop_ok s pre h0 tail []
    ((List.range (pre.length * 4 + 1)).map heap.junk) (by simp; omega)
  simp only [List.nil_append, List.length_nil, Nat.zero_add, List.length_map,
    List.length_range] at hloop hlen
  cases F' with
  | nil =>
    simp only [List.length_nil] at hlen
    omega
  | cons x rest =>
    simp only [List.length_cons] at hlen
    refine ⟨rest, ?_, by omega, hbound⟩
    have hst := store_append (pre.flatMap (escapeByte s)) x rest 0
    simp only [escape_string, strlen_append pre h0 tail, malloc, hok, if_true, hloop, hst]

theorem escape_string_null (s : Bool) (heap : Alloc) (hok : heap.ok = false) (pre : List Nat)
    (h0 : ∀ b ∈ pre, b ≠ 0) (tail : List Nat) :
    escape_string s heap (pre ++ 0 :: tail) = .ok none := by
  simp [escape_string, strlen_append pre h0 tail, malloc, hok]

/-! ## Lemmas on the image of one byte -/

theorem charValue_range (s : Bool) (c : Nat) (h : c < 256) :
    (charValue s c < 32 ∨ charValue s c > 126) ↔ (c < 32 ∨ c > 126) := by
  unfold charValue
  rw [Nat.mod_eq_of_lt h]
  cases s <;> split_ifs <;> omega

theorem escapeByte_eq_specImage (s : Bool) (c : Nat) (h : c < 256) (hc : c ≠ 0) :
    escapeByte s c = specImage c := by
  have hp := printf_03o_byte c h
  have hr := charValue_range s c h
  unfold escapeByte specImage
  rw [Nat.mod_eq_of_lt h, hp]
  simp only [hc, if_false, hr]

theorem escaped_eq_specImage (s : Bool) (pre : List Nat) (hbytes : ∀ b ∈ pre, b < 256)
    (h0 : ∀ b ∈ pre, b ≠ 0) :
    pre.flatMap (escapeByte s) = pre.flatMap specImage := by
  induction pre with
  | nil => rfl
  | cons c pre ih =>
    simp only [List.flatMap_cons]
    rw [escapeByte_eq_specImage s c (hbytes c (by simp)) (h0 c (by simp)),
      ih (fun b hb => hbytes b (by simp [hb])) (fun b hb => h0 b (by simp [hb]))]

theorem decodeLiteral_specImage (c : Nat) (h : c < 256) (hc : c ≠ 0) (rest : List Nat) :
    decodeLiteral (specImage c ++ rest) = consByte (some c) (decodeLiteral rest) := by
  unfold specImage
  split_ifs with h1 h2 h3 h4 h5 h6
  · subst h1
    rw [decodeLiteral.eq_def]
    simp
  · subst h2
    rw [decodeLiteral.eq_def]
    simp
  · subst h3
    rw [decodeLiteral.eq_def]
    simp
  · subst h4
    rw [decodeLiteral.eq_def]
    simp
  · subst h5
    rw [decodeLiteral.eq_def]
    simp
  · have e1 : isOctalDigit (48 + c / 64) = true := by simp [isOctalDigit]; omega
    have e2 : isOctalDigit (48 + c / 8 % 8) = true := by simp [isOctalDigit]; omega
    have e3 : isOctalDigit (48 + c % 8) = true := by simp [isOctalDigit]; omega
    have ev : octalValue [48 + c / 64, 48 + c / 8 % 8, 48 + c % 8] = some c := by
      have : (c / 64 * 8 + c / 8 % 8) * 8 + c % 8 = c := by omega
      simp [octalValue, this, h]
    have n1 : ¬ (48 + c / 64 = 110) := by omega
    have n2 : ¬ (48 + c / 64 = 114) := by omega
    have n3 : ¬ (48 + c / 64 = 116) := by omega
    have n4 : ¬ (48 + c / 64 = 92) := by omega
    have n5 : ¬ (48 + c / 64 = 34) := by omega
    simp only [List.cons_append, List.nil_append]
    rw [decodeLiteral.eq_def]
    simp only [if_true, if_neg n1, if_neg n2, if_neg n3, if_neg n4, if_neg n5, e1, e2, e3, ev]
  · have n1 : ¬ (c = 34 ∨ c = 10) := by omega
    simp only [List.cons_append, List.nil_append]
    rw [decodeLiteral.eq_def]
    simp only [if_neg h4, if_neg n1]

theorem decodeLiteral_escaped (pre : List Nat) (hbytes : ∀ b ∈ pre, b < 256)
    (h0 : ∀ b ∈ pre, b ≠ 0) :
    decodeLiteral (pre.flatMap specImage) = some pre := by
  induction pre with
  | nil => rfl
  | cons c pre ih =>
    rw [List.flatMap_cons, decodeLiteral_specImage c (hbytes c (by simp)) (h0 c (by simp)),
      ih (fun b hb => hbytes b (by simp [hb])) (fun b hb => h0 b (by simp [hb]))]
    rfl

theorem isToken_specImage (c : Nat) (h : c < 256) :
    isToken (specImage c) = true := by
  unfold specImage
  split_ifs with h1 h2 h3 h4 h5 h6
  · simp [isToken]
  · simp [isToken]
  · simp [isToken]
  · simp [isToken]
  · simp [isToken]
  · simp [isToken, isOctalDigit]; omega
  · simp [isToken]; omega

theorem specImage_printable (c : Nat) (h : c < 256) :
    ∀ b ∈ specImage c, 32 ≤ b ∧ b ≤ 126 := by
  intro b hb
  unfold specImage at hb
  split_ifs at hb <;> simp at hb <;> omega

/-- On the buffer `read_file` hands over (the bytes `S` and a terminator),
`escape_string` returns the images of the bytes before the first NUL. -/
theorem escape_string_cstr (s : Bool) (heap : Alloc) (hok : heap.ok = true) (S : List Nat) :
    ∃ buf, escape_string s heap (S ++ [0]) = .ok (some buf) ∧
      cstr buf = (beforeNul S).flatMap (escapeByte s) := by
  obtain ⟨tail, ht⟩ := beforeNul_split S
  obtain ⟨rest, hrun, _, _⟩ :=
    escape_string_ok s heap hok (beforeNul S) (beforeNul_ne_zero S) tail
  rw [← ht] at hrun
  exact ⟨_, hrun, cstr_append _ (escaped_ne_zero s _) rest⟩

/-! ## The claims on `escape_string` -/

/-- C1: for every byte sequence `S`, decoding the output of `escape_string`
by the rules of C string literals gives `S` itself when `S` has no NUL byte,
and the part of `S` before its first NUL byte otherwise. -/
theorem escape_string_roundtrip (s : Bool) (heap : Alloc) (S : List Nat)
    (hok : heap.ok = true) (hbytes : ∀ b ∈ S, b < 256) :
    ∃ buf, escape_string s heap (S ++ [0]) = .ok (some buf) ∧
      decodeLiteral (cstr buf) = some (if 0 ∈ S then beforeNul S else S) := by
  obtain ⟨buf, hrun, hstr⟩ := escape_string_cstr s heap hok S
  refine ⟨buf, hrun, ?_⟩
  have hb := beforeNul_sublist_bytes S hbytes
  have hz := beforeNul_ne_zero S
  rw [hstr, escaped_eq_specImage s _ hb hz, decodeLiteral_escaped _ hb hz]
  split_ifs with h
  · rfl
  · rw [beforeNul_of_not_mem S h]

theorem escape_string_roundtrip_witness :
    (∀ b ∈ [104, 34, 200, 92, 0, 7], b < 256) ∧
      ∃ buf, escape_string true ⟨true, fun _ => 0⟩ ([104, 34, 200, 92, 0, 7] ++ [0])
          = .ok (some buf) ∧
        decodeLiteral (cstr buf)
          = some (if 0 ∈ [104, 34, 200, 92, 0, 7] then beforeNul [104, 34, 200, 92, 0, 7]
              else [104, 34, 200, 92, 0, 7]) :=
  ⟨by decide,
    escape_string_roundtrip true ⟨true, fun _ => 0⟩ [104, 34, 200, 92, 0, 7] rfl (by decide)⟩

/-- C2: for every byte sequence without a NUL byte, the output of
`escape_string` is the concatenation, in input order, of the images of its
bytes under the table of the specification. -/
theorem escape_string_table (s : Bool) (heap : Alloc) (S : List Nat)
    (hok : heap.ok = true) (hbytes : ∀ b ∈ S, b < 256) (hnul : 0 ∉ S) :
    ∃ buf, escape_string s heap (S ++ [0]) = .ok (some buf) ∧
      cstr buf = S.flatMap specImage := by
  obtain ⟨buf, hrun, hstr⟩ := escape_string_cstr s heap hok S
  refine ⟨buf, hrun, ?_⟩
  rw [hstr, beforeNul_of_not_mem S hnul]
  exact escaped_eq_specImage s S hbytes (fun b hb e => hnul (e ▸ hb))

theorem escape_string_table_witness :
    (∀ b ∈ [1, 128, 255, 10, 65], b < 256) ∧ 0 ∉ [1, 128, 255, 10, 65] ∧
      [1, 128, 255, 10, 65].flatMap specImage
        = [92, 48, 48, 49, 92, 50, 48, 48, 92, 51, 55, 55, 92, 110, 65] ∧
      ∃ buf, escape_string false ⟨true, fun _ => 9⟩ ([1, 128, 255, 10, 65] ++ [0])
          = .ok (some buf) ∧
        cstr buf = [1, 128, 255, 10, 65].flatMap specImage :=
  ⟨by decide, by decide, by decide,
    escape_string_table false ⟨true, fun _ => 9⟩ [1, 128, 255, 10, 65] rfl (by decide)
      (by decide)⟩

/-- C4: for every input byte sequence, the output of `escape_string` holds
only bytes in 32-126 (so no raw newline, carriage return, tab or NUL) and
splits into tokens, each one printable byte other than backslash and double
quote, a simple escape, or a backslash and three octal digits. -/
theorem escape_string_safe (s : Bool) (heap : Alloc) (S : List Nat)
    (hok : heap.ok = true) (hbytes : ∀ b ∈ S, b < 256) :
    ∃ (buf : List Nat) (tokens : List (List Nat)),
      escape_string s heap (S ++ [0]) = .ok (some buf) ∧
      tokens.flatten = cstr buf ∧ (∀ t ∈ tokens, isToken t = true) ∧
      ∀ b ∈ cstr buf, 32 ≤ b ∧ b ≤ 126 := by
  obtain ⟨buf, hrun, hstr⟩ := escape_string_cstr s heap hok S
  have hb := beforeNul_sublist_bytes S hbytes
  have hz := beforeNul_ne_zero S
  rw [escaped_eq_specImage s _ hb hz] at hstr
  refine ⟨buf, (beforeNul S).map specImage, hrun, ?_, ?_, ?_⟩
  · rw [hstr, List.flatMap_def]
  · intro t ht
    obtain ⟨c, hc, rfl⟩ := List.mem_map.mp ht
    exact isToken_specImage c (hb c hc)
  · intro b hbm
    rw [hstr] at hbm
    obtain ⟨c, hc, hbc⟩ := List.mem_flatMap.mp hbm
    exact specImage_printable c (hb c hc) b hbc

theorem escape_string_safe_witness :
    (∀ b ∈ [34, 92, 9, 13, 10, 0, 200], b < 256) ∧
      ∃ (buf : List Nat) (tokens : List (List Nat)),
        escape_string true ⟨true, fun _ => 3⟩ ([34, 92, 9, 13, 10, 0, 200] ++ [0])
          = .ok (some buf) ∧
        tokens.flatten = cstr buf ∧ (∀ t ∈ tokens, isToken t = true) ∧
        ∀ b ∈ cstr buf, 32 ≤ b ∧ b ≤ 126 :=
  ⟨by decide,
    escape_string_safe true ⟨true, fun _ => 3⟩ [34, 92, 9, 13, 10, 0, 200] rfl (by decide)⟩

/-- C5: for every input, with `n` the number of bytes before the first NUL,
`escape_string` runs without a store outside the buffer of `4 * n + 1` bytes
it allocates (the NUL `sprintf` appends and the final terminator included),
and the string it returns has length at most `4 * n`. -/
theorem escape_string_in_bounds (s : Bool) (heap : Alloc) (S : List Nat) :
    ∃ out rest, strlen (S ++ [0]) = .ok (beforeNul S).length ∧
      escape_string s heap (S ++ [0])
        = .ok (if heap.ok = true then some (out ++ 0 :: rest) else none) ∧
      (∀ b ∈ out, b ≠ 0) ∧
      out.length ≤ 4 * (beforeNul S).length ∧
      (out ++ 0 :: rest).length = 4 * (beforeNul S).length + 1 := by
  obtain ⟨tail, ht⟩ := beforeNul_split S
  have hz := beforeNul_ne_zero S
  have hlen := strlen_append (beforeNul S) hz tail
  rw [← ht] at hlen
  cases hok : heap.ok with
  | true =>
    obtain ⟨rest, hrun, hsize, hbound⟩ := escape_string_ok s heap hok (beforeNul S) hz tail
    rw [← ht] at hrun
    refine ⟨_, rest, hlen, by simpa using hrun, escaped_ne_zero s _, hbound, ?_⟩
    simp only [List.length_append, List.length_cons]
    omega
  | false =>
    have hrun := escape_string_null s heap hok (beforeNul S) hz tail
    rw [← ht] at hrun
    obtain ⟨rest, _, hsize, hbound⟩ :=
      escape_string_ok s ⟨true, heap.junk⟩ rfl (beforeNul S) hz tail
    refine ⟨_, rest, hlen, by simpa using hrun, escaped_ne_zero s _, hbound, ?_⟩
    simp only [List.length_append, List.length_cons]
    omega

/-- C3 (the code departs from the claim): on the file content `a`, NUL, `b`,
read whole by `read_file`, `escape_string` returns the one byte `a`: it stops
at the NUL byte and emits neither an escape for it nor the byte after it. -/
theorem escape_string_stops_at_nul :
    read_file ⟨true, true, [97, 0, 98], 3⟩ ⟨true, fun _ => 0⟩
        = .ok (some ([97, 0, 98, 0], 3)) ∧
      (∃ buf, escape_string true ⟨true, fun _ => 0⟩ [97, 0, 98, 0] = .ok (some buf) ∧
        cstr buf = [97]) ∧
      escapeByte true 97 ++ escapeByte true 0 ++ escapeByte true 98 = [97, 92, 48, 98] :=
  ⟨rfl, ⟨_, rfl, rfl⟩, rfl⟩

/-! ## Lemmas on the string functions -/

theorem strcpy_append (src : List Nat) (h0 : ∀ b ∈ src, b ≠ 0) (tail : List Nat) :
    ∀ (L xs R : List Nat), xs.length = src.length + 1 →
      strcpy (src ++ 0 :: tail) (L ++ xs ++ R) L.length = .ok (L ++ src ++ 0 :: R) := by
  induction src with
  | nil =>
    intro L xs R h
    match xs, h with
    | [x], _ => simp [strcpy, store_append]
  | cons c src ih =>
    intro L xs R h
    have hc : c ≠ 0 := h0 c (by simp)
    have h0' : ∀ b ∈ src, b ≠ 0 := fun b hb => h0 b (by simp [hb])
    cases xs with
    | nil => simp at h
    | cons x xs =>
      simp only [List.length_cons, Nat.add_right_cancel_iff] at h
      have h1 : store (L ++ (x :: xs) ++ R) L.length c = .ok (L ++ c :: (xs ++ R)) := by
        have := store_append L x (xs ++ R) c
        simpa using this
      have h2 := ih h0' (L ++ [c]) xs R (by simpa using h)
      simp only [List.length_append, List.length_singleton, List.append_assoc,
        List.singleton_append] at h2
      simp only [List.cons_append, strcpy, h1, hc, if_false]
      simpa using h2

theorem strrchr_scan_absent (ch : Nat) (hch : ch ≠ 0) (t : List Nat) (h0 : ∀ b ∈ t, b ≠ 0)
    (habs : ch ∉ t) (R : List Nat) :
    ∀ (i : Nat) (last : Option Nat), strrchr_scan ch (t ++ 0 :: R) i last = .ok last := by
  induction t with
  | nil =>
    intro i last
    simp [strrchr_scan, hch]
  | cons c t ih =>
    intro i last
    have hc : c ≠ 0 := h0 c (by simp)
    have hne : c ≠ ch := fun e => habs (by simp [e])
    simp only [List.cons_append, strrchr_scan, hc, hne, if_false]
    exact ih (fun b hb => h0 b (by simp [hb])) (fun hm => habs (by simp [hm])) _ _

theorem strrchr_scan_skip (ch : Nat) (a : List Nat) (h0 : ∀ b ∈ a, b ≠ 0) (m : List Nat) :
    ∀ (i : Nat) (last : Option Nat),
      ∃ last', strrchr_scan ch (a ++ m) i last = strrchr_scan ch m (i + a.length) last' := by
  induction a with
  | nil =>
    intro i last
    exact ⟨last, by simp⟩
  | cons c a ih =>
    intro i last
    have hc : c ≠ 0 := h0 c (by simp)
    obtain ⟨last', h⟩ := ih (fun b hb => h0 b (by simp [hb])) (i + 1)
      (if c = ch then some i else last)
    refine ⟨last', ?_⟩
    have e : i + (c :: a).length = i + 1 + a.length := by
      simp only [List.length_cons]
      omega
    rw [e, ← h]
    simp only [List.cons_append, strrchr_scan, hc, if_false]
    rfl

theorem strrchr_last (ch : Nat) (hch : ch ≠ 0) (a t : List Nat) (ha : ∀ b ∈ a, b ≠ 0)
    (ht : ∀ b ∈ t, b ≠ 0) (habs : ch ∉ t) (R : List Nat) :
    strrchr (a ++ ch :: t ++ 0 :: R) ch = .ok (some a.length) := by
  obtain ⟨last', h⟩ := strrchr_scan_skip ch a ha (ch :: t ++ 0 :: R) 0 none
  have h' : a ++ ch :: t ++ 0 :: R = a ++ (ch :: t ++ 0 :: R) := by simp
  rw [strrchr, h', h]
  simp only [List.cons_append, strrchr_scan, hch, if_false, if_true, Nat.zero_add]
  exact strrchr_scan_absent ch hch t ht habs R _ _

theorem last_occurrence (ch : Nat) (p : List Nat) (h : ch ∈ p) :
    ∃ a t, p = a ++ ch :: t ∧ ch ∉ t := by
  induction p with
  | nil => simp at h
  | cons c p ih =>
    by_cases hp : ch ∈ p
    · obtain ⟨a, t, rfl, hnt⟩ := ih hp
      exact ⟨c :: a, t, by simp, hnt⟩
    · have hc : ch = c := by
        rcases List.mem_cons.mp h with e | e
        · exact e
        · exact absurd e hp
      subst hc
      exact ⟨[], p, by simp, hp⟩

theorem strcmp_eq_append (t : List Nat) (ht : ∀ b ∈ t, b ≠ 0) (R : List Nat) :
    ∀ (u : List Nat), (∀ b ∈ u, b ≠ 0) →
      strcmp_eq (t ++ 0 :: R) (u ++ [0]) = .ok (decide (t = u)) := by
  induction t with
  | nil =>
    intro u hu
    cases u with
    | nil => simp [strcmp_eq]
    | cons y u =>
      have hy : y ≠ 0 := hu y (by simp)
      simp [strcmp_eq, Ne.symm hy]
  | cons x t ih =>
    intro u hu
    have hx : x ≠ 0 := ht x (by simp)
    cases u with
    | nil => simp [strcmp_eq, hx]
    | cons y u =>
      by_cases hxy : x = y
      · subst hxy
        have := ih (fun b hb => ht b (by simp [hb])) u (fun b hb => hu b (by simp [hb]))
        simp [strcmp_eq, hx, this]
      · simp [strcmp_eq, hxy]

theorem suffix_py_iff (a t : List Nat) (habs : 46 ∉ t) :
    [46, 112, 121] <:+ a ++ 46 :: t ↔ t = [112, 121] := by
  constructor
  · rintro ⟨q, hq⟩
    have hr := congrArg List.reverse hq
    simp only [List.reverse_append, List.reverse_cons, List.reverse_nil, List.nil_append,
      List.cons_append, List.append_assoc, List.singleton_append] at hr
    have habs' : 46 ∉ t.reverse := by simpa using habs
    have htr : t.reverse = [121, 112] := by
      match hm : t.reverse, habs', hr with
      | [], _, hr => simp [hm] at hr
      | [x], _, hr => simp [hm] at hr
      | [x, y], _, hr =>
        simp [hm] at hr
        obtain ⟨h1, h2, _⟩ := hr
        rw [← h1, ← h2]
      | x :: y :: z :: r, hab, hr =>
        simp [hm] at hr
        obtain ⟨_, _, h3, _⟩ := hr
        exact absurd (by simp [← h3]) hab
    have := congrArg List.reverse htr
    simpa using this
  · rintro rfl
    exact ⟨a, rfl⟩

theorem create_output_filename_eq (heap : Alloc) (p : List Nat)
    (hok : heap.ok = true) (h0 : ∀ b ∈ p, b ≠ 0) :
    ∃ buf, create_output_filename heap (p ++ [0]) = .ok (some buf) ∧
      cstr buf = if [46, 112, 121] <:+ p then p.take (p.length - 3) else p := by
  have hlen := strlen_append p h0 []
  obtain ⟨R, hcopy⟩ : ∃ R, strcpy (p ++ [0]) ((List.range (p.length + 10)).map heap.junk) 0
      = .ok (p ++ 0 :: R) := by
    have h := strcpy_append p h0 [] []
      (((List.range (p.length + 10)).map heap.junk).take (p.length + 1))
      (((List.range (p.length + 10)).map heap.junk).drop (p.length + 1)) (by simp)
    simp only [List.nil_append, List.take_append_drop, List.length_nil] at h
    exact ⟨_, h⟩
  by_cases hdot : 46 ∈ p
  · obtain ⟨a, t, rfl, habs⟩ := last_occurrence 46 p hdot
    have ha : ∀ b ∈ a, b ≠ 0 := fun b hb => h0 b (by simp [hb])
    have ht : ∀ b ∈ t, b ≠ 0 := fun b hb => h0 b (by simp [hb])
    have hchr := strrchr_last 46 (by decide) a t ha ht habs R
    have hdrop : (a ++ 46 :: t ++ 0 :: R).drop a.length = (46 :: t) ++ 0 :: R := by
      rw [List.append_assoc, List.drop_left]
    have hcmp := strcmp_eq_append (46 :: t) (fun b hb => h0 b (by simp [hb])) R
      [46, 112, 121] (by decide)
    have hsuf := suffix_py_iff a t habs
    by_cases hpy : t = [112, 121]
    · subst hpy
      have hst : store (a ++ 46 :: [112, 121] ++ 0 :: R) a.length 0
          = .ok (a ++ 0 :: ([112, 121] ++ 0 :: R)) := by
        have := store_append a 46 ([112, 121] ++ 0 :: R) 0
        simpa using this
      refine ⟨a ++ 0 :: ([112, 121] ++ 0 :: R), ?_, ?_⟩
      · simp only [create_output_filename, hlen, malloc, hok, if_true, hcopy, hchr, hdrop,
          dotPy]
        rw [show ([46, 112, 121, 0] : List Nat) = [46, 112, 121] ++ [0] from rfl, hcmp]
        simp only [decide_True, hst]
      · rw [cstr_append a ha, if_pos (hsuf.mpr rfl)]
        simp
    · refine ⟨a ++ 46 :: t ++ 0 :: R, ?_, ?_⟩
      · simp only [create_output_filename, hlen, malloc, hok, if_true, hcopy, hchr, hdrop,
          dotPy]
        rw [show ([46, 112, 121, 0] : List Nat) = [46, 112, 121] ++ [0] from rfl, hcmp]
        have : ¬ (46 :: t = [46, 112, 121]) := by simpa using hpy
        simp only [this, decide_False]
      · rw [cstr_append _ h0, if_neg (fun h => hpy (hsuf.mp h))]
  · have hchr : strrchr (p ++ 0 :: R) 46 = .ok none :=
      strrchr_scan_absent 46 (by decide) p h0 hdot R 0 none
    refine ⟨p ++ 0 :: R, ?_, ?_⟩
    · simp only [create_output_filename, hlen, malloc, hok, if_true, hcopy, hchr]
    · have hns : ¬ [46, 112, 121] <:+ p := fun h => hdot (h.subset (by simp))
      rw [cstr_append p h0, if_neg hns]

/-! ## The claim on `create_output_filename` -/

/-- C6: for every script path `p`, `create_output_filename` returns `p`
without its last three characters when `p` ends with ".py", and `p` unchanged
otherwise. -/
theorem create_output_filename_strips_py (heap : Alloc) (p : List Nat)
    (hok : heap.ok = true) (h0 : ∀ b ∈ p, b ≠ 0) :
    ∃ buf, create_output_filename heap (p ++ [0]) = .ok (some buf) ∧
      cstr buf = if [46, 112, 121] <:+ p then p.take (p.length - 3) else p :=
  create_output_filename_eq heap p hok h0

theorem create_output_filename_strips_py_witness :
    (∀ b ∈ [104, 105, 46, 112, 121], b ≠ 0) ∧
      ∃ buf, create_output_filename ⟨true, fun _ => 1⟩ ([104, 105, 46, 112, 121] ++ [0])
          = .ok (some buf) ∧
        cstr buf = if [46, 112, 121] <:+ [104, 105, 46, 112, 121]
          then [104, 105, 46, 112, 121].take ([104, 105, 46, 112, 121].length - 3)
          else [104, 105, 46, 112, 121] :=
  ⟨by decide,
    create_output_filename_strips_py ⟨true, fun _ => 1⟩ [104, 105, 46, 112, 121] rfl
      (by decide)⟩

/-! ## Lemmas on the conversion -/

theorem storeAll_front (buf vs : List Nat) (h : vs.length ≤ buf.length) :
    storeAll buf 0 vs = .ok (vs ++ buf.drop vs.length) := by
  have := storeAll_append vs [] (buf.take vs.length) (buf.drop vs.length)
    (by simp; omega)
  simpa using this

theorem toSizeT_natCast (n : Nat) : toSizeT (n : Int) = n := by
  unfold toSizeT
  split_ifs with h
  · omega
  · simp

theorem toSizeT_natCast_succ (n : Nat) : toSizeT ((n : Int) + 1) = n + 1 := by
  unfold toSizeT
  split_ifs with h
  · omega
  · omega

theorem read_file_seekable (f : FileRead) (heap : Alloc) (ho : f.opens = true)
    (hs : f.seekable = true) :
    read_file f heap = .ok
      (if heap.ok = true ∧ f.content.length ≤ f.readCount
        then some (f.content ++ [0], (f.content.length : Int)) else none) := by
  unfold read_file
  simp only [ho, Bool.true_eq_false, if_false, ftell_end, hs, if_true, toSizeT_natCast,
    toSizeT_natCast_succ]
  by_cases hm : heap.ok = true
  swap
  · simp [hm, malloc]
  have hst := storeAll_front ((List.range (f.content.length + 1)).map heap.junk)
    (f.content.take (min (min f.readCount f.content.length) f.content.length)) (by simp)
  simp only [hm, malloc, if_true, hst, true_and]
  by_cases hr : f.content.length ≤ f.readCount
  · have hmin : min (min f.readCount f.content.length) f.content.length = f.content.length := by
      omega
    simp only [hmin, List.take_length, ne_eq, not_true_eq_false, if_false, hr, if_true]
    obtain ⟨x, hx⟩ : ∃ x, ((List.range (f.content.length + 1)).map heap.junk).drop
        f.content.length = [x] := by
      refine ⟨heap.junk f.content.length, ?_⟩
      rw [← List.map_drop, List.range_succ]
      simp
    rw [hx, store_append f.content x [] 0]
  · have hmin : ((min (min f.readCount f.content.length) f.content.length : Nat) : Int)
        ≠ (f.content.length : Int) := by omega
    simp only [ne_eq, hmin, not_false_eq_true, if_true, hr, if_false]

theorem read_file_not_seekable (f : FileRead) (heap : Alloc) (ho : f.opens = true)
    (hs : f.seekable = false) :
    read_file f heap =
      if heap.ok = true ∧ 0 < f.readCount ∧ 0 < f.content.length then .error .writePastEnd
      else .ok none := by
  unfold read_file
  have e0 : toSizeT (-1 + 1) = 0 := by decide
  simp only [ho, Bool.true_eq_false, Bool.false_eq_true, if_false, ftell_end, hs, e0]
  by_cases hm : heap.ok = true
  swap
  · simp [hm, malloc]
  simp only [hm, malloc, if_true, List.range_zero, List.map_nil, true_and]
  by_cases hr : 0 < f.readCount ∧ 0 < f.content.length
  · have hpos : 0 < min (min f.readCount (toSizeT (-1))) f.content.length := by
      have : 0 < toSizeT (-1) := by decide
      omega
    obtain ⟨c, rest, hc⟩ : ∃ c rest, f.content.take
        (min (min f.readCount (toSizeT (-1))) f.content.length) = c :: rest := by
      cases hcont : f.content with
      | nil => simp [hcont] at hr
      | cons c cs =>
        rw [hcont] at hpos
        obtain ⟨k, hk⟩ : ∃ k, min (min f.readCount (toSizeT (-1))) (c :: cs).length = k + 1 :=
          ⟨_, (Nat.succ_pred_eq_of_pos hpos).symm⟩
        exact ⟨c, cs.take k, by rw [hk, List.take_succ_cons]⟩
    rw [hc]
    simp [storeAll, store, hr]
  · have hz : min (min f.readCount (toSizeT (-1))) f.content.length = 0 := by omega
    simp [hz, storeAll, hr]

/-- On a pipe that delivers one byte, `read_file` allocates `-1 + 1 = 0` bytes
and the byte `fread` delivers is stored past the end of that block. -/
theorem read_file_overruns_on_pipe :
    read_file ⟨true, false, [112], 1⟩ ⟨true, fun _ => 0⟩ = .error .writePastEnd :=
  rfl

/-- The result of `read_file` in closed form: it stores past the end of its
buffer when the file is not seekable and at least one byte is read, and
otherwise delivers the content followed by a NUL exactly when the file opens,
is seekable, the buffer is allocated and `fread` delivers every byte. -/
theorem read_file_eq (f : FileRead) (heap : Alloc) :
    read_file f heap =
      if f.opens = true ∧ f.seekable = false ∧ heap.ok = true ∧ 0 < f.readCount ∧
          0 < f.content.length
      then .error .writePastEnd
      else .ok
        (if f.opens = true ∧ f.seekable = true ∧ heap.ok = true ∧
            f.content.length ≤ f.readCount
          then some (f.content ++ [0], (f.content.length : Int)) else none) := by
  by_cases ho : f.opens = true
  swap
  · simp [read_file, ho]
  cases hs : f.seekable with
  | true => simp [read_file_seekable f heap ho hs, ho]
  | false => simp [read_file_not_seekable f heap ho hs, ho]

end Python2Exe

namespace Python2Exe

/-- The result of `escape_string` on a buffer from `read_file`, in closed
form. -/
theorem escape_string_total (s : Bool) (heap : Alloc) (S : List Nat) :
    ∃ buf, cstr buf = (beforeNul S).flatMap (escapeByte s) ∧
      escape_string s heap (S ++ [0]) = .ok (if heap.ok = true then some buf else none) := by
  obtain ⟨tail, ht⟩ := beforeNul_split S
  have hz := beforeNul_ne_zero S
  cases hok : heap.ok with
  | true =>
    obtain ⟨buf, hrun, hstr⟩ := escape_string_cstr s heap hok S
    exact ⟨buf, hstr, by simpa using hrun⟩
  | false =>
    have hrun := escape_string_null s heap hok (beforeNul S) hz tail
    rw [← ht] at hrun
    obtain ⟨buf, _, hstr⟩ := escape_string_cstr s ⟨true, heap.junk⟩ rfl S
    exact ⟨buf, hstr, by simpa using hrun⟩

theorem readOverruns_iff (w : World) :
    readOverruns w = true ↔
      (w.script.opens = true ∧ w.script.seekable = false ∧ w.readHeap.ok = true ∧
        0 < w.script.readCount ∧ 0 < w.script.content.length) := by
  simp [readOverruns, and_assoc]

theorem readOk_iff (w : World) :
    readOk w = true ↔
      (w.script.opens = true ∧ w.script.seekable = true ∧ w.readHeap.ok = true ∧
        w.script.content.length ≤ w.script.readCount) := by
  simp [readOk, and_assoc]

theorem readOverruns_of_seekable (w : World) (h : w.script.seekable = true) :
    readOverruns w = false := by
  simp [readOverruns, h]

/-- The run of `convert_python_to_exe` in closed form: it stores past the end
of the read buffer when both checks pass and `read_file` overruns, and returns
`convertOutcome` otherwise. -/
theorem convert_closed (w : World) (python_script output_executable : List Nat) :
    convert_python_to_exe w python_script output_executable =
      if w.scriptExists = true ∧ w.interpreterExists = true ∧ readOverruns w = true
      then .error .writePastEnd
      else .ok (convertOutcome w python_script output_executable) := by
  obtain ⟨buf, hstr, hesc⟩ := escape_string_total w.charSigned w.escapeHeap w.script.content
  unfold convert_python_to_exe convertOutcome
  simp only [file_exists, read_file_eq]
  by_cases h1 : w.scriptExists = false
  · simp [h1]
  have h1' : w.scriptExists = true := by simpa using h1
  simp only [h1', Bool.true_eq_false, if_false, true_and]
  by_cases h2 : w.interpreterExists = false
  · simp [h2]
  have h2' : w.interpreterExists = true := by simpa using h2
  simp only [h2', Bool.true_eq_false, if_false, true_and]
  by_cases hov : readOverruns w = true
  · have := (readOverruns_iff w).mp hov
    simp only [hov, this, and_self, if_true]
  have hov' : ¬ (w.script.opens = true ∧ w.script.seekable = false ∧ w.readHeap.ok = true ∧
      0 < w.script.readCount ∧ 0 < w.script.content.length) :=
    fun h => hov ((readOverruns_iff w).mpr h)
  simp only [hov, hov', if_false]
  by_cases h3 : readOk w = false
  · have : ¬ (w.script.opens = true ∧ w.script.seekable = true ∧ w.readHeap.ok = true ∧
        w.script.content.length ≤ w.script.readCount) :=
      fun h => by rw [(readOk_iff w).mpr h] at h3; cases h3
    simp only [h3, this, if_false, if_true, Bool.false_eq_true]
  have h3' : w.script.opens = true ∧ w.script.seekable = true ∧ w.readHeap.ok = true ∧
      w.script.content.length ≤ w.script.readCount :=
    (readOk_iff w).mp (by simpa using h3)
  simp only [h3, h3', and_self, if_true, if_false, hesc, Bool.false_eq_true]
  by_cases h4 : w.escapeHeap.ok = false
  · simp [h4]
  have h4' : w.escapeHeap.ok = true := by simpa using h4
  simp only [h4', if_true, Bool.true_eq_false, if_false]
  cases h5 : w.mkstemps with
  | none => simp
  | some six =>
    simp only [generate_wrapper, compile_wrapper, hstr, escapedScript]
    by_cases h6 : w.wrapperOpens = false
    · simp [h6]
    simp only [h6, if_false]
    by_cases h6w : w.wrapperWriteOk = false
    · by_cases h7 : w.compileStatus = 0
      · by_cases h8 : w.outputExists = false
        · simp [h6w, h7, h8]
        · simp [h6w, h7, h8]
      · simp [h6w, h7]
    · by_cases h7 : w.compileStatus = 0
      · by_cases h8 : w.outputExists = false
        · simp [h6w, h7, h8]
        · simp [h6w, h7, h8]
      · simp [h6w, h7]

/-- Every run either overruns the read buffer, which takes a script that is
not seekable, or returns `convertOutcome`. -/
theorem convert_run (w : World) (ps out : List Nat) :
    (w.script.seekable = false ∧ w.scriptExists = true ∧ w.interpreterExists = true ∧
        readOverruns w = true ∧ convert_python_to_exe w ps out = .error .writePastEnd) ∨
      convert_python_to_exe w ps out = .ok (convertOutcome w ps out) := by
  rw [convert_closed]
  by_cases h : w.scriptExists = true ∧ w.interpreterExists = true ∧ readOverruns w = true
  · left
    exact ⟨((readOverruns_iff w).mp h.2.2).2.1, h.1, h.2.1, h.2.2, by rw [if_pos h]⟩
  · right
    rw [if_neg h]

theorem convert_seekable (w : World) (ps out : List Nat) (h : w.script.seekable = true) :
    convert_python_to_exe w ps out = .ok (convertOutcome w ps out) := by
  rcases convert_run w ps out with ⟨hs, _⟩ | hr
  · rw [h] at hs
    cases hs
  · exact hr

end Python2Exe

namespace Python2Exe

theorem convertOutcome_steps (w : World) (ps out : List Nat) :
    ((convertOutcome w ps out).1 = 0 ↔ ∀ ok ∈ stepReports w, ok = true) ∧
      ((convertOutcome w ps out).1 = 0 ∨ (convertOutcome w ps out).1 = 1) ∧
      (convertOutcome w ps out).2.filterMap stepOf
        = allSteps.take (((stepReports w).takeWhile id).length + 1) := by
  unfold convertOutcome stepReports allSteps
  by_cases h1 : w.scriptExists = false
  · simp [h1, stepOf]
  have h1' : w.scriptExists = true := by simpa using h1
  by_cases h2 : w.interpreterExists = false
  · simp [h1', h2, stepOf]
  have h2' : w.interpreterExists = true := by simpa using h2
  by_cases h3 : readOk w = false
  · simp [h1', h2', h3, stepOf]
  have h3' : readOk w = true := by simpa using h3
  by_cases h4 : w.escapeHeap.ok = false
  · simp [h1', h2', h3', h4, stepOf]
  have h4' : w.escapeHeap.ok = true := by simpa using h4
  cases h5 : w.mkstemps with
  | none => simp [h1', h2', h3', h4', stepOf]
  | some six =>
    by_cases h6 : w.wrapperOpens = false
    · simp [h1', h2', h3', h4', h6, stepOf]
    have h6' : w.wrapperOpens = true := by simpa using h6
    cases h6w : w.wrapperWriteOk <;>
    by_cases h7 : w.compileStatus = 0 <;>
    cases h8 : w.outputExists <;>
    simp [h1', h2', h3', h4', h6', h7, stepOf]

theorem convertOutcome_interpreter (w : World) (ps out : List Nat) :
    (w.scriptExists = true →
        Event.statInterpreter PYTHON_EXECUTABLE ∈ (convertOutcome w ps out).2) ∧
      ∀ path, Event.statInterpreter path ∈ (convertOutcome w ps out).2 →
        path = PYTHON_EXECUTABLE := by
  unfold convertOutcome
  by_cases h1 : w.scriptExists = false
  · simp [h1]
  by_cases h2 : w.interpreterExists = false
  · simp [h1, h2]
  by_cases h3 : readOk w = false
  · simp [h1, h2, h3]
  by_cases h4 : w.escapeHeap.ok = false
  · simp [h1, h2, h3, h4]
  cases h5 : w.mkstemps with
  | none => simp [h1, h2, h3, h4]
  | some six =>
    by_cases h6 : w.wrapperOpens = false
    · simp [h1, h2, h3, h4, h6]
    cases h6w : w.wrapperWriteOk <;>
    by_cases h7 : w.compileStatus = 0 <;>
    cases h8 : w.outputExists <;>
    simp [h1, h2, h3, h4, h6, h7]

theorem main_two_args (w : World) (nameHeap : Alloc) (prog ps : List Nat)
    (hok : nameHeap.ok = true) (h0 : ∀ b ∈ ps, b ≠ 0) :
    main w nameHeap [prog, ps] = convert_python_to_exe w ps
      (if [46, 112, 121] <:+ ps then ps.take (ps.length - 3) else ps) := by
  obtain ⟨buf, hrun, hstr⟩ := create_output_filename_eq nameHeap ps hok h0
  simp [main, hrun, hstr]

theorem convertOutcome_missing (w : World) (ps out : List Nat) (h : w.scriptExists = false) :
    convertOutcome w ps out = (1, [Event.statScript ps]) := by
  unfold convertOutcome
  simp [h]

theorem convertOutcome_removes (w : World) (ps out : List Nat) :
    tempFilesRemoved (convertOutcome w ps out).2 = true := by
  unfold convertOutcome
  by_cases h1 : w.scriptExists = false
  · simp [h1, tempFilesRemoved]
  by_cases h2 : w.interpreterExists = false
  · simp [h1, h2, tempFilesRemoved]
  by_cases h3 : readOk w = false
  · simp [h1, h2, h3, tempFilesRemoved]
  by_cases h4 : w.escapeHeap.ok = false
  · simp [h1, h2, h3, h4, tempFilesRemoved]
  cases h5 : w.mkstemps with
  | none => simp [h1, h2, h3, h4, tempFilesRemoved]
  | some six =>
    by_cases h6 : w.wrapperOpens = false
    · simp [h1, h2, h3, h4, h6, tempFilesRemoved]
    cases h6w : w.wrapperWriteOk <;>
    by_cases h7 : w.compileStatus = 0 <;>
    cases h8 : w.outputExists <;>
    simp [h1, h2, h3, h4, h6, h7, tempFilesRemoved]

theorem convertOutcome_creates (w : World) (ps out six : List Nat)
    (h1 : w.scriptExists = true) (h2 : w.interpreterExists = true) (h3 : readOk w = true)
    (h4 : w.escapeHeap.ok = true) (h5 : w.mkstemps = some six) :
    Event.mkstemps (tempCFile six) ∈ (convertOutcome w ps out).2 ∧
      Event.unlink (tempCFile six) ∈ (convertOutcome w ps out).2 := by
  unfold convertOutcome
  simp only [h1, h2, h3, h4, h5, Bool.true_eq_false, if_false]
  by_cases h6 : w.wrapperOpens = false
  · simp [h6]
  cases h6w : w.wrapperWriteOk <;>
  by_cases h7 : w.compileStatus = 0 <;>
  cases h8 : w.outputExists <;>
  simp [h6, h7]

theorem convertOutcome_output (w : World) (ps out : List Nat) :
    ((convertOutcome w ps out).1 = 0 → w.outputExists = true) ∧
      (w.outputExists = false → (convertOutcome w ps out).1 = 1) ∧
      ∀ size, convertOutcome { w with outputSize := size } ps out = convertOutcome w ps out := by
  have hs := convertOutcome_steps w ps out
  refine ⟨fun h => ?_, fun h => ?_, fun size => rfl⟩
  · exact hs.1.mp h _ (by simp [stepReports])
  · rcases hs.2.1 with h0 | h1
    · have := hs.1.mp h0 w.outputExists (by simp [stepReports])
      rw [h] at this
      cases this
    · exact h1

/-! ## The claims on `convert_python_to_exe` -/

/-- C7 (as stated, refuted): the source file of the wrapper opens but cannot
be written, so that the sixth step, the generation of the wrapper, is the
first to fail; `generate_wrapper` still returns 0 and the compiler, the
seventh step, is run before `convert_python_to_exe` returns 1. -/
theorem convert_compiles_after_failed_write :
    ∃ trace, convert_python_to_exe writeFailureWorld [115] [111] = .ok (1, trace) ∧
      (stepOutcomes writeFailureWorld).takeWhile id = [true, true, true, true, true] ∧
      trace.filterMap stepOf = allSteps.take 7 ∧
      Step.compile ∈ trace.filterMap stepOf :=
  ⟨_, rfl, by decide, rfl, by decide⟩

/-- C7 (amended): for a script that is a seekable file,
`convert_python_to_exe` returns 0 exactly when every step reports success
(input exists, interpreter exists at "/usr/bin/python3", read, escape,
temporary file, generation, compilation, output exists) and 1 otherwise, and
it performs the steps up to and including the first one that reports failure
and none after it; for a missing input it does nothing but the first check.
The generation reports success as soon as the source file of the wrapper
opens: an error while writing it is not detected. `main` returns the same
code. -/
theorem convert_python_to_exe_first_failure (w : World) (nameHeap : Alloc)
    (prog python_script output_executable : List Nat) (hseek : w.script.seekable = true) :
    ∃ code trace,
      convert_python_to_exe w python_script output_executable = .ok (code, trace) ∧
      (code = 0 ↔ ∀ ok ∈ stepReports w, ok = true) ∧
      (code = 0 ∨ code = 1) ∧
      trace.filterMap stepOf = allSteps.take (((stepReports w).takeWhile id).length + 1) ∧
      (w.wrapperWriteOk = true → stepReports w = stepOutcomes w) ∧
      (∀ escaped_code temp_c_file, w.wrapperOpens = true →
        (generate_wrapper w python_script escaped_code temp_c_file).1 = 0) ∧
      (w.scriptExists = false → code = 1 ∧ trace = [Event.statScript python_script]) ∧
      (w.scriptExists = true →
        Event.statInterpreter
          [47, 117, 115, 114, 47, 98, 105, 110, 47, 112, 121, 116, 104, 111, 110, 51] ∈ trace) ∧
      (∀ path, Event.statInterpreter path ∈ trace →
        path = [47, 117, 115, 114, 47, 98, 105, 110, 47, 112, 121, 116, 104, 111, 110, 51]) ∧
      main w nameHeap [prog, python_script, output_executable] = .ok (code, trace) ∧
      (nameHeap.ok = true → (∀ b ∈ python_script, b ≠ 0) →
        main w nameHeap [prog, python_script] = convert_python_to_exe w python_script
          (if [46, 112, 121] <:+ python_script
            then python_script.take (python_script.length - 3) else python_script)) := by
  have hc := convert_seekable w python_script output_executable hseek
  have hs := convertOutcome_steps w python_script output_executable
  have hi := convertOutcome_interpreter w python_script output_executable
  refine ⟨(convertOutcome w python_script output_executable).1,
    (convertOutcome w python_script output_executable).2, hc, hs.1, hs.2.1, hs.2.2,
    ?_, ?_, ?_, hi.1, hi.2, ?_, ?_⟩
  · intro h
    simp [stepReports, stepOutcomes, h]
  · intro escaped_code temp_c_file h
    cases hw : w.wrapperWriteOk <;> simp [generate_wrapper, h, hw]
  · intro h
    rw [convertOutcome_missing w python_script output_executable h]
    exact ⟨rfl, rfl⟩
  · simp [main, hc]
  · exact fun hok h0 => main_two_args w nameHeap prog python_script hok h0

theorem convert_python_to_exe_first_failure_witness :
    successWorld.script.seekable = true ∧
      ∃ trace, convert_python_to_exe successWorld [115, 46, 112, 121] [115] = .ok (0, trace) ∧
        trace.filterMap stepOf = allSteps := by
  refine ⟨rfl, ?_⟩
  obtain ⟨code, trace, hrun, hzero, _, hsteps, _⟩ :=
    convert_python_to_exe_first_failure successWorld ⟨true, fun _ => 0⟩ [112]
      [115, 46, 112, 121] [115] rfl
  have hcode : code = 0 := hzero.mpr (by decide)
  subst hcode
  exact ⟨trace, hrun, by rw [hsteps]; decide⟩

/-- C8 (as stated, refuted): every step succeeds and the output file exists
with size zero, and `convert_python_to_exe` returns 0. -/
theorem convert_accepts_empty_output :
    ∃ trace, convert_python_to_exe emptyOutputWorld [115] [111] = .ok (0, trace) ∧
      emptyOutputWorld.outputExists = true ∧
      get_file_size emptyOutputWorld.outputSize = 0 :=
  ⟨_, rfl, rfl, rfl⟩

/-- C8 (amended): a run of `convert_python_to_exe` either overruns the read
buffer, which takes a script that is not seekable, or returns; whenever it
returns 0 the final check found the output file, a missing output file makes
it return 1, and the size of the output file has no influence on the
result. -/
theorem convert_success_output_exists (w : World) (python_script output_executable : List Nat) :
    (w.script.seekable = false ∧ w.scriptExists = true ∧ w.interpreterExists = true ∧
        readOverruns w = true ∧
        convert_python_to_exe w python_script output_executable = .error .writePastEnd) ∨
      ∃ code trace,
        convert_python_to_exe w python_script output_executable = .ok (code, trace) ∧
        (code = 0 → w.outputExists = true) ∧
        (w.outputExists = false → code = 1) ∧
        ∀ size, convert_python_to_exe { w with outputSize := size } python_script
          output_executable = .ok (code, trace) := by
  rcases convert_run w python_script output_executable with hover | hc
  · exact Or.inl hover
  · right
    have ho := convertOutcome_output w python_script output_executable
    refine ⟨(convertOutcome w python_script output_executable).1,
      (convertOutcome w python_script output_executable).2, hc, ho.1, ho.2.1, fun size => ?_⟩
    rw [convert_closed] at hc ⊢
    rw [ho.2.2 size]
    exact hc

/-- C9: a run of `convert_python_to_exe` either overruns the read buffer,
which takes a script that is not seekable and happens before any temporary
file is created, or returns; in every run that returns, each temporary file
created by `mkstemps` is unlinked later in the run, whichever step fails or
none; and when the run reaches `mkstemps` and it succeeds, the file is
created and unlinked. -/
theorem convert_removes_temp_file (w : World) (python_script output_executable : List Nat) :
    (w.script.seekable = false ∧ w.scriptExists = true ∧ w.interpreterExists = true ∧
        readOverruns w = true ∧
        convert_python_to_exe w python_script output_executable = .error .writePastEnd) ∨
      ∃ code trace,
        convert_python_to_exe w python_script output_executable = .ok (code, trace) ∧
        tempFilesRemoved trace = true ∧
        ∀ six, w.scriptExists = true → w.interpreterExists = true → readOk w = true →
          w.escapeHeap.ok = true → w.mkstemps = some six →
          Event.mkstemps (tempCFile six) ∈ trace ∧ Event.unlink (tempCFile six) ∈ trace := by
  rcases convert_run w python_script output_executable with hover | hc
  · exact Or.inl hover
  · exact Or.inr ⟨(convertOutcome w python_script output_executable).1,
      (convertOutcome w python_script output_executable).2, hc,
      convertOutcome_removes w python_script output_executable,
      fun six h1 h2 h3 h4 h5 =>
        convertOutcome_creates w python_script output_executable six h1 h2 h3 h4 h5⟩

/-! ## Lemmas on the generated wrapper -/

theorem strcpy_fault (src : List Nat) (h0 : ∀ b ∈ src, b ≠ 0) (tail : List Nat) :
    ∀ (dst : List Nat) (i : Nat), dst.length < i + src.length + 1 →
      strcpy (src ++ 0 :: tail) dst i = .error .writePastEnd := by
  induction src with
  | nil =>
    intro dst i h
    simp only [List.length_nil] at h
    simp [strcpy, store_fault dst i 0 (by omega)]
  | cons c src ih =>
    intro dst i h
    have hc : c ≠ 0 := h0 c (by simp)
    simp only [List.length_cons] at h
    by_cases hi : i < dst.length
    · have hs : store dst i c = .ok (dst.set i c) := by simp [store, hi]
      have := ih (fun b hb => h0 b (by simp [hb])) (dst.set i c) (i + 1) (by simp; omega)
      simp only [List.cons_append, strcpy, hs, hc, if_false]
      exact this
    · simp [strcpy, store_fault dst i c (by omega)]

theorem strcat_ok (cmd F src tail : List Nat) (hcmd : ∀ b ∈ cmd, b ≠ 0)
    (hsrc : ∀ b ∈ src, b ≠ 0) (h : src.length ≤ F.length) :
    strcat (cmd ++ 0 :: F) (src ++ 0 :: tail) = .ok (cmd ++ src ++ 0 :: F.drop src.length) := by
  have hc := strcpy_append src hsrc tail cmd ((0 :: F).take (src.length + 1))
    ((0 :: F).drop (src.length + 1)) (by simp; omega)
  rw [List.append_assoc, List.take_append_drop] at hc
  simp only [strcat, strlen_append cmd hcmd F, hc]
  simp

theorem strcat_fault (cmd F src tail : List Nat) (hcmd : ∀ b ∈ cmd, b ≠ 0)
    (hsrc : ∀ b ∈ src, b ≠ 0) (h : F.length < src.length) :
    strcat (cmd ++ 0 :: F) (src ++ 0 :: tail) = .error .writePastEnd := by
  have hc := strcpy_fault src hsrc tail (cmd ++ 0 :: F) cmd.length (by simp; omega)
  simp only [strcat, strlen_append cmd hcmd F, hc]

/-- What the argument loop appends for one argument. -/
theorem wrapper_append_arg_ok (cmd F arg : List Nat) (hcmd : ∀ b ∈ cmd, b ≠ 0)
    (harg : ∀ b ∈ arg, b ≠ 0) (h : arg.length + 3 ≤ F.length) :
    wrapper_append_arg (cmd ++ 0 :: F) arg
      = .ok (cmd ++ ([32, 34] ++ arg ++ [34]) ++ 0 :: F.drop (arg.length + 3)) := by
  have h1 := strcat_ok cmd F [32, 34] [] hcmd (by decide) (by simp; omega)
  have hcmd1 : ∀ b ∈ cmd ++ [32, 34], b ≠ 0 := by
    intro b hb
    rcases List.mem_append.mp hb with hb | hb
    · exact hcmd b hb
    · simp at hb; omega
  have h2 := strcat_ok (cmd ++ [32, 34]) (F.drop 2) arg [] hcmd1 harg (by simp; omega)
  have hcmd2 : ∀ b ∈ cmd ++ [32, 34] ++ arg, b ≠ 0 := by
    intro b hb
    rcases List.mem_append.mp hb with hb | hb
    · exact hcmd1 b hb
    · exact harg b hb
  have h3 := strcat_ok (cmd ++ [32, 34] ++ arg) ((F.drop 2).drop arg.length) [34] [] hcmd2
    (by decide) (by simp; omega)
  simp only [List.length_cons, List.length_nil] at h1 h3
  simp only [wrapper_append_arg]
  rw [show ([32, 34, 0] : List Nat) = [32, 34] ++ 0 :: [] from rfl, h1]
  simp only []
  rw [show arg ++ [0] = arg ++ 0 :: [] from rfl, h2]
  simp only []
  rw [show ([34, 0] : List Nat) = [34] ++ 0 :: [] from rfl, h3]
  simp only [List.drop_drop, List.append_assoc, Except.ok.injEq]
  rw [show 2 + arg.length + (0 + 1) = arg.length + 3 by omega]

theorem wrapper_append_arg_fault (cmd F arg : List Nat) (hcmd : ∀ b ∈ cmd, b ≠ 0)
    (harg : ∀ b ∈ arg, b ≠ 0) (h : F.length < arg.length + 3) :
    wrapper_append_arg (cmd ++ 0 :: F) arg = .error .writePastEnd := by
  simp only [wrapper_append_arg]
  rw [show ([32, 34, 0] : List Nat) = [32, 34] ++ 0 :: [] from rfl]
  by_cases h1 : F.length < 2
  · rw [strcat_fault cmd F [32, 34] [] hcmd (by decide) (by simpa using h1)]
  rw [strcat_ok cmd F [32, 34] [] hcmd (by decide) (by simp; omega)]
  have hcmd1 : ∀ b ∈ cmd ++ [32, 34], b ≠ 0 := by
    intro b hb
    rcases List.mem_append.mp hb with hb | hb
    · exact hcmd b hb
    · simp at hb; omega
  simp only [List.length_cons, List.length_nil]
  rw [show arg ++ [0] = arg ++ 0 :: [] from rfl]
  by_cases h2 : (F.drop 2).length < arg.length
  · rw [strcat_fault (cmd ++ [32, 34]) (F.drop 2) arg [] hcmd1 harg h2]
  rw [strcat_ok (cmd ++ [32, 34]) (F.drop 2) arg [] hcmd1 harg (by omega)]
  have hcmd2 : ∀ b ∈ cmd ++ [32, 34] ++ arg, b ≠ 0 := by
    intro b hb
    rcases List.mem_append.mp hb with hb | hb
    · exact hcmd1 b hb
    · exact harg b hb
  simp only []
  rw [show ([34, 0] : List Nat) = [34] ++ 0 :: [] from rfl]
  exact strcat_fault (cmd ++ [32, 34] ++ arg) ((F.drop 2).drop arg.length) [34] [] hcmd2
    (by decide) (by simp at h2 ⊢; omega)

theorem argText_ne_zero (arg : List Nat) (harg : ∀ b ∈ arg, b ≠ 0) :
    ∀ b ∈ [32, 34] ++ arg ++ [34], b ≠ 0 := by
  intro b hb
  simp only [List.mem_append, List.mem_cons, List.mem_singleton, List.not_mem_nil,
    or_false] at hb
  rcases hb with (hb | hb) | hb
  · omega
  · exact harg b hb
  · omega

theorem argsText_cons (a : List Nat) (args : List (List Nat)) :
    argsText (a :: args) = ([32, 34] ++ a ++ [34]) ++ argsText args := rfl

theorem argsText_length_cons (a : List Nat) (args : List (List Nat)) :
    (argsText (a :: args)).length = a.length + 3 + (argsText args).length := by
  rw [argsText_cons]
  simp only [List.length_append, List.length_cons, List.length_nil]
  omega

theorem argsText_ne_zero (args : List (List Nat)) (hargs : ∀ a ∈ args, ∀ b ∈ a, b ≠ 0) :
    ∀ b ∈ argsText args, b ≠ 0 := by
  intro b hb
  obtain ⟨a, ha, hba⟩ := List.mem_flatMap.mp hb
  exact argText_ne_zero a (hargs a ha) b hba

theorem wrapper_append_args_ok (args : List (List Nat)) (hargs : ∀ a ∈ args, ∀ b ∈ a, b ≠ 0) :
    ∀ (cmd F : List Nat), (∀ b ∈ cmd, b ≠ 0) → (argsText args).length ≤ F.length →
      wrapper_append_args args (cmd ++ 0 :: F)
        = .ok (cmd ++ argsText args ++ 0 :: F.drop (argsText args).length) := by
  induction args with
  | nil =>
    intro cmd F _ _
    simp [wrapper_append_args, argsText]
  | cons a args ih =>
    intro cmd F hcmd hlen
    have ha : ∀ b ∈ a, b ≠ 0 := hargs a (by simp)
    rw [argsText_length_cons] at hlen
    have h1 := wrapper_append_arg_ok cmd F a hcmd ha (by omega)
    have hcmd1 : ∀ b ∈ cmd ++ ([32, 34] ++ a ++ [34]), b ≠ 0 := by
      intro b hb
      rcases List.mem_append.mp hb with hb | hb
      · exact hcmd b hb
      · exact argText_ne_zero a ha b hb
    have h2 := ih (fun x hx => hargs x (by simp [hx])) (cmd ++ ([32, 34] ++ a ++ [34]))
      (F.drop (a.length + 3)) hcmd1 (by rw [List.length_drop]; omega)
    rw [wrapper_append_args, h1]
    simp only []
    rw [h2, List.drop_drop, argsText_length_cons, argsText_cons]
    simp only [List.append_assoc]

theorem wrapper_append_args_fault (args : List (List Nat))
    (hargs : ∀ a ∈ args, ∀ b ∈ a, b ≠ 0) :
    ∀ (cmd F : List Nat), (∀ b ∈ cmd, b ≠ 0) → F.length < (argsText args).length →
      wrapper_append_args args (cmd ++ 0 :: F) = .error .writePastEnd := by
  induction args with
  | nil =>
    intro cmd F _ h
    simp [argsText] at h
  | cons a args ih =>
    intro cmd F hcmd hlen
    have ha : ∀ b ∈ a, b ≠ 0 := hargs a (by simp)
    rw [argsText_length_cons] at hlen
    by_cases hfit : a.length + 3 ≤ F.length
    · have h1 := wrapper_append_arg_ok cmd F a hcmd ha hfit
      have hcmd1 : ∀ b ∈ cmd ++ ([32, 34] ++ a ++ [34]), b ≠ 0 := by
        intro b hb
        rcases List.mem_append.mp hb with hb | hb
        · exact hcmd b hb
        · exact argText_ne_zero a ha b hb
      have h2 := ih (fun x hx => hargs x (by simp [hx])) (cmd ++ ([32, 34] ++ a ++ [34]))
        (F.drop (a.length + 3)) hcmd1 (by rw [List.length_drop]; omega)
      rw [wrapper_append_args, h1]
      simp only []
      rw [h2]
    · have h1 := wrapper_append_arg_fault cmd F a hcmd ha (by omega)
      rw [wrapper_append_args, h1]

theorem python_executable_ne_zero : ∀ b ∈ PYTHON_EXECUTABLE ++ [32], b ≠ 0 := by
  decide

theorem commandText_length (temp_file : List Nat) (argv : List (List Nat)) :
    (commandText temp_file argv).length
      = 17 + temp_file.length +
        (argsText (argv.drop 1)).length := by
  simp only [commandText, PYTHON_EXECUTABLE, List.length_append, List.length_cons,
    List.length_nil]

theorem malloc_ok (heap : Alloc) (hok : heap.ok = true) (n : Nat) :
    ∃ M, M.length = n ∧ malloc heap n = some M :=
  ⟨(List.range n).map heap.junk, by simp, by simp only [malloc, hok, if_true]⟩

/-- The state of `python_cmd` when the argument loop of the wrapper starts:
the interpreter path, a space and the temporary file name, with 1006 bytes
left after the terminator. -/
theorem wrapper_command_start (M temp_file : List Nat)
    (hM : M.length = temp_file.length + 1024) (htemp : ∀ b ∈ temp_file, b ≠ 0) :
    ∃ F, F.length = 1006 ∧
      strcpy (PYTHON_EXECUTABLE ++ [32, 0]) M 0
        = .ok (PYTHON_EXECUTABLE ++ [32] ++ 0 :: M.drop 18) ∧
      strcat (PYTHON_EXECUTABLE ++ [32] ++ 0 :: M.drop 18) (temp_file ++ [0])
        = .ok (PYTHON_EXECUTABLE ++ [32] ++ temp_file ++ 0 :: F) := by
  refine ⟨(M.drop 18).drop temp_file.length, ?_, ?_, ?_⟩
  · simp only [List.length_drop, hM]
    omega
  · have h := strcpy_append (PYTHON_EXECUTABLE ++ [32]) python_executable_ne_zero [] []
      (M.take 18) (M.drop 18)
      (by
        simp only [List.length_take, hM, PYTHON_EXECUTABLE, List.length_append,
          List.length_cons, List.length_nil]
        omega)
    rw [List.nil_append, List.take_append_drop] at h
    exact h
  · exact strcat_ok (PYTHON_EXECUTABLE ++ [32]) _ temp_file [] python_executable_ne_zero htemp
      (by
        simp only [List.length_drop, hM]
        omega)

theorem wrapper_build_command_fits (heap : Alloc) (hok : heap.ok = true)
    (temp_file : List Nat) (argv : List (List Nat)) (htemp : ∀ b ∈ temp_file, b ≠ 0)
    (hargs : ∀ a ∈ argv, ∀ b ∈ a, b ≠ 0)
    (hfit : (commandText temp_file argv).length + 1 ≤ temp_file.length + 1024) :
    ∃ buf, wrapper_build_command heap temp_file argv = .ok (some buf) ∧
      cstr buf = commandText temp_file argv := by
  have h1 := strlen_append temp_file htemp []
  obtain ⟨M, hM, h2⟩ := malloc_ok heap hok (temp_file.length + 1024)
  obtain ⟨F, hF, h3, h4⟩ := wrapper_command_start M temp_file hM htemp
  rw [commandText_length] at hfit
  have hcmd : ∀ b ∈ PYTHON_EXECUTABLE ++ [32] ++ temp_file, b ≠ 0 := by
    intro b hb
    rcases List.mem_append.mp hb with hb | hb
    · exact python_executable_ne_zero b hb
    · exact htemp b hb
  have hargs' : ∀ a ∈ argv.drop 1, ∀ b ∈ a, b ≠ 0 :=
    fun a ha => hargs a ((List.drop_sublist 1 argv).subset ha)
  have h5 := wrapper_append_args_ok (argv.drop 1) hargs' _ F hcmd (by omega)
  refine ⟨PYTHON_EXECUTABLE ++ [32] ++ temp_file ++ argsText (argv.drop 1) ++
    0 :: F.drop (argsText (argv.drop 1)).length,
    by simp only [wrapper_build_command, h1, h2, h3, h4, h5], ?_⟩
  rw [cstr_append]
  · rfl
  · intro b hb
    rcases List.mem_append.mp hb with hb | hb
    · exact hcmd b hb
    · exact argsText_ne_zero _ hargs' b hb

theorem wrapper_build_command_overflow (heap : Alloc) (hok : heap.ok = true)
    (temp_file : List Nat) (argv : List (List Nat)) (htemp : ∀ b ∈ temp_file, b ≠ 0)
    (hargs : ∀ a ∈ argv, ∀ b ∈ a, b ≠ 0)
    (hbig : temp_file.length + 1024 < (commandText temp_file argv).length + 1) :
    wrapper_build_command heap temp_file argv = .error .writePastEnd := by
  have h1 := strlen_append temp_file htemp []
  obtain ⟨M, hM, h2⟩ := malloc_ok heap hok (temp_file.length + 1024)
  obtain ⟨F, hF, h3, h4⟩ := wrapper_command_start M temp_file hM htemp
  rw [commandText_length] at hbig
  have hcmd : ∀ b ∈ PYTHON_EXECUTABLE ++ [32] ++ temp_file, b ≠ 0 := by
    intro b hb
    rcases List.mem_append.mp hb with hb | hb
    · exact python_executable_ne_zero b hb
    · exact htemp b hb
  have hargs' : ∀ a ∈ argv.drop 1, ∀ b ∈ a, b ≠ 0 :=
    fun a ha => hargs a ((List.drop_sublist 1 argv).subset ha)
  have h5 := wrapper_append_args_fault (argv.drop 1) hargs' _ F hcmd (by omega)
  simp only [wrapper_build_command, h1, h2, h3, h4, h5]

/-! ## The claim on the generated wrapper -/

/-- C10 (the code departs from the claim): for the temporary file
"/tmp/pyexe_x_AbCdEf" and one argument of 1004 bytes the command string with
its terminator needs one byte more than the `strlen(temp_file) + 1024` bytes
allocated, and building it stores past the end of the buffer; with an
argument of 1003 bytes it fits exactly. -/
theorem wrapper_command_overflows :
    (commandText [47, 116, 109, 112, 47, 112, 121, 101, 120, 101, 95, 120, 95, 65, 98, 67,
        100, 69, 102] [[120], List.replicate 1004 97]).length + 1 = 19 + 1024 + 1 ∧
      wrapper_build_command ⟨true, fun _ => 0⟩
        [47, 116, 109, 112, 47, 112, 121, 101, 120, 101, 95, 120, 95, 65, 98, 67, 100, 69, 102]
        [[120], List.replicate 1004 97] = .error .writePastEnd ∧
      ∃ buf, wrapper_build_command ⟨true, fun _ => 0⟩
          [47, 116, 109, 112, 47, 112, 121, 101, 120, 101, 95, 120, 95, 65, 98, 67, 100, 69, 102]
          [[120], List.replicate 1003 97] = .ok (some buf) ∧
        (cstr buf).length + 1 = 19 + 1024 := by
  have hargs : ∀ n, ∀ a ∈ [[120], List.replicate n 97], ∀ b ∈ a, b ≠ 0 := by
    intro n a ha b hb
    simp only [List.mem_cons, List.mem_singleton, List.not_mem_nil, or_false] at ha
    rcases ha with rfl | rfl
    · simp only [List.mem_singleton] at hb
      omega
    · have := List.eq_of_mem_replicate hb
      omega
  have hlen : ∀ n, (commandText [47, 116, 109, 112, 47, 112, 121, 101, 120, 101, 95, 120, 95,
      65, 98, 67, 100, 69, 102] [[120], List.replicate n 97]).length = 17 + 19 + (n + 3) := by
    intro n
    rw [commandText_length]
    simp only [List.drop_succ_cons, List.drop_zero]
    rw [argsText_length_cons]
    simp only [argsText, List.flatMap_nil, List.length_nil, List.length_cons,
      List.length_replicate]
  refine ⟨by rw [hlen], ?_, ?_⟩
  · exact wrapper_build_command_overflow _ rfl _ _ (by decide) (hargs 1004)
      (by rw [hlen]; simp only [List.length_cons, List.length_nil]; omega)
  · obtain ⟨buf, hrun, hstr⟩ := wrapper_build_command_fits ⟨true, fun _ => 0⟩ rfl
      [47, 116, 109, 112, 47, 112, 121, 101, 120, 101, 95, 120, 95, 65, 98, 67, 100, 69, 102]
      [[120], List.replicate 1003 97] (by decide) (hargs 1003)
      (by rw [hlen]; simp only [List.length_cons, List.length_nil]; omega)
    exact ⟨buf, hrun, by rw [hstr, hlen]⟩

end Python2Exe
